import Mathlib

/-!
# Verification of the my-world-atlas persistence / CSV / geo-cache core

Shallow embedding of the core services of the repository:

* `FileService` (fileService.js): CSV parse, generate, download, export,
  built on a model of `Papa.parse` / `Papa.unparse`.
* the Zustand store (src/store/useAtlasStore.js): `markPlaceAsVisited`,
  `importFromCSV`, with the IndexedDB object store (keyPath `uniqueId`)
  modelled as a keyed list with upsert semantics.
* `MapService` (src/services/mapService.js): retrying geo fetch, cache
  validity, cache clearing.

JavaScript values flowing through `Papa.parse` with `dynamicTyping: true`
are modelled by `JsVal`.  Numbers are represented by their exact decimal
normal form (`NumNF`); JavaScript renders a parsed float back to a shortest
decimal form, which agrees with this normal form except that JS switches to
scientific notation for magnitudes outside [1e-7, 1e21) and rounds to double
precision — both renderings are value-faithful and stable under reparsing,
which is all the claims depend on.  Newer PapaParse versions additionally
convert full ISO-8601 timestamps to `Date` objects whose stringification is
locale and timezone dependent; that conversion is not modelled (the sources
pin no PapaParse version, and no claim's truth depends on it: such values
are truthy and stringify to text containing no CSV metacharacters).
Asynchronous I/O (FileReader, fetch, IndexedDB transactions) is modelled by
passing the read contents / fetch outcomes / clock in as parameters.
-/

/-- JavaScript whitespace trimming (`String.prototype.trim`) on a char list. -/
def trimList (l : List Char) : List Char :=
  ((l.dropWhile Char.isWhitespace).reverse.dropWhile Char.isWhitespace).reverse

/-- JavaScript `s.trim()`. -/
def jsTrim (s : String) : String := String.mk (trimList s.data)

/-! ## Exact decimal normal form of a JavaScript number -/

/-- Normal form of a finite decimal: value = (-1)^sign * 0.digits * 10^pointPos.
Zero is `digits = []` (with `sign = false`, `pointPos = 0`). -/
structure NumNF where
  sign : Bool
  digits : List Char
  pointPos : Int
deriving DecidableEq

/-- A normal form is canonical: digit chars only, no leading or trailing
zero digit, and the zero value is uniquely represented. -/
def NumNF.Normal (n : NumNF) : Prop :=
  (∀ c ∈ n.digits, c.isDigit) ∧
  (n.digits = [] → n.sign = false ∧ n.pointPos = 0) ∧
  n.digits.head? ≠ some '0' ∧
  n.digits.getLast? ≠ some '0'

/-- Longest digit prefix of a char list, with the remainder. -/
def takeDigits : List Char → List Char × List Char
  | [] => ([], [])
  | c :: t =>
    if c.isDigit then
      let p := takeDigits t
      (c :: p.1, p.2)
    else ([], c :: t)

/-- Strip leading `'0'` digits, decrementing the decimal point position. -/
def stripLeadZeros : List Char → Int → List Char × Int
  | [], p => ([], p)
  | c :: t, p => if c = '0' then stripLeadZeros t (p - 1) else (c :: t, p)

/-- Strip trailing `'0'` digits. -/
def stripTrailZeros : List Char → List Char
  | [] => []
  | c :: t =>
    match stripTrailZeros t with
    | [] => if c = '0' then [] else [c]
    | r => c :: r

/-- Numeric value of a digit string (used only for the exponent). -/
def digitsToNat (l : List Char) : Nat :=
  l.foldl (fun a c => a * 10 + (c.toNat - '0'.toNat)) 0

/-- Parse the optional exponent part (`e`/`E`, optional sign, digits) of a
float literal, returning its value and the remainder; `none` when an `e` is
present but malformed (PapaParse's FLOAT regex then rejects the literal). -/
def parseExpPart : List Char → Option (Int × List Char)
  | [] => some (0, [])
  | c :: t =>
    if c = 'e' ∨ c = 'E' then
      let neg := t.head? = some '-'
      let t2 := if t.head? = some '-' ∨ t.head? = some '+' then t.tail else t
      let d := takeDigits t2
      if d.1 = [] then none
      else some (if neg then -(digitsToNat d.1 : Int) else (digitsToNat d.1 : Int), d.2)
    else some (0, c :: t)

/-- Combine the mantissa digit parts and the exponent into the exact decimal
normal form of the value. -/
def mkNF (sign : Bool) (ipart fpart : List Char) (ev : Int) : Option NumNF :=
  let lead := stripLeadZeros (ipart ++ fpart) ((ipart.length : Int) + ev)
  let d2 := stripTrailZeros lead.1
  if d2 = [] then some ⟨false, [], 0⟩ else some ⟨sign, d2, lead.2⟩

/-- Mantissa and exponent of an (already sign-stripped) float literal. -/
def parseFloatCore (sign : Bool) (l : List Char) : Option NumNF :=
  let ip := takeDigits l
  let fp := if ip.2.head? = some '.' then takeDigits ip.2.tail else ([], ip.2)
  if ip.1 = [] ∧ fp.1 = [] then none
  else
    match parseExpPart fp.2 with
    | none => none
    | some ev =>
      if ev.2.dropWhile Char.isWhitespace ≠ [] then none
      else mkNF sign ip.1 fp.1 ev.1

/-- Parse a JavaScript float literal per PapaParse's FLOAT test
(`^\s*-?(\d+\.?\d*|\.\d+)(e[-+]?\d+)?\s*$`) followed by `parseFloat`,
returning the exact decimal normal form of the value. -/
def parseFloatLit (s : String) : Option NumNF :=
  let l0 := s.data.dropWhile Char.isWhitespace
  if l0.head? = some '-' then parseFloatCore true l0.tail
  else parseFloatCore false l0

/-- Render the magnitude of a normal form in plain decimal notation. -/
def renderMag (digits : List Char) (p : Int) : List Char :=
  if digits = [] then ['0']
  else if p ≤ 0 then '0' :: '.' :: (List.replicate (-p).toNat '0' ++ digits)
  else if (digits.length : Int) ≤ p then digits ++ List.replicate (p - digits.length).toNat '0'
  else digits.take p.toNat ++ '.' :: digits.drop p.toNat

/-- JavaScript stringification of the number (see the header note on
scientific notation). -/
def NumNF.render (n : NumNF) : String :=
  String.mk ((if n.sign ∧ n.digits ≠ [] then ['-'] else []) ++ renderMag n.digits n.pointPos)

/-! ## JavaScript values after dynamic typing -/

/-- A JavaScript value produced by `Papa.parse` with `dynamicTyping: true`. -/
inductive JsVal where
  | vStr (s : String)
  | vNum (n : NumNF)
  | vBool (b : Bool)
  | vNull
deriving DecidableEq

deriving instance DecidableEq for Except

/-- JavaScript truthiness. -/
def truthy : JsVal → Bool
  | .vStr s => s ≠ ""
  | .vNum n => n.digits ≠ []
  | .vBool b => b
  | .vNull => false

/-- JavaScript `String(v)` on the values above. -/
def jsToString : JsVal → String
  | .vStr s => s
  | .vNum n => n.render
  | .vBool true => "true"
  | .vBool false => "false"
  | .vNull => "null"

/-- PapaParse dynamic typing of one cell (`parseDynamic`): boolean literals,
then the empty string to `null`, then float literals; anything else stays a
string. -/
def dynamicType (s : String) : JsVal :=
  if s = "true" ∨ s = "TRUE" then .vBool true
  else if s = "false" ∨ s = "FALSE" then .vBool false
  else if s = "" then .vNull
  else
    match parseFloatLit s with
    | some n => .vNum n
    | none => .vStr s

/-! ## CSV tokenizer (Papa.parse record splitting, comma delimiter)

PapaParse guesses the delimiter among `, \t ; |`; the model fixes the comma,
which is what it guesses on every input the claims range over (and what the
generator emits).  Newlines are `\r\n` or `\n`. -/

/-- Double the quotes of a field body (the quoting used by `Papa.unparse`
with `quotes: true`). -/
def escQ : List Char → List Char
  | [] => []
  | c :: t => if c = '"' then '"' :: '"' :: escQ t else c :: escQ t

/-- Render one field fully quoted. -/
def renderField (s : String) : List Char := '"' :: (escQ s.data ++ ['"'])

/-- Join rendered fields with the comma delimiter. -/
def joinFields : List (List Char) → List Char
  | [] => []
  | [f] => f
  | f :: rest => f ++ ',' :: joinFields rest

/-- Join rendered rows with CRLF (no trailing newline, as `Papa.unparse`). -/
def joinRows : List (List Char) → List Char
  | [] => []
  | [r] => r
  | r :: rest => r ++ '\r' :: '\n' :: joinRows rest

/-- Model of `Papa.unparse` with `quotes: true`, comma delimiter and CRLF
newline: every field quoted, rows CRLF-separated. -/
def papaUnparse (rows : List (List String)) : String :=
  String.mk (joinRows (rows.map (fun r => joinFields (r.map renderField))))

/-- Newline normalization: the scanner works over LF-only text (PapaParse
detects one newline convention per input; lone CR is also treated as a
newline).  Quoted CR/CRLF content is normalized to LF — PapaParse preserves
it verbatim, but no claim distinguishes the two (see the round-trip
theorem, whose required fields never contain CR). -/
def normNewlines : List Char → List Char
  | [] => []
  | '\x0d' :: '\n' :: t => '\n' :: normNewlines t
  | '\x0d' :: t => '\n' :: normNewlines t
  | c :: t => c :: normNewlines t

/-- Scanner state: outside any quotes, inside quotes, or just past a quote
met inside quotes (which closes the field unless doubled). -/
inductive ScanSt where
  | out
  | inq
  | postq
deriving DecidableEq

/-- One pass of the CSV record scanner over LF-normalized text.  `f` is the
current field, `row` the fields of the current record, `acc` the completed
records. -/
def csvScan (l : List Char) (st : ScanSt) (f : List Char) (row : List String)
    (acc : List (List String)) : List (List String) :=
  match l with
  | [] => acc ++ [row ++ [String.mk f]]
  | c :: rest =>
    match st with
    | .inq =>
      if c = '"' then csvScan rest .postq f row acc
      else csvScan rest .inq (f ++ [c]) row acc
    | .postq =>
      if c = '"' then csvScan rest .inq (f ++ ['"']) row acc
      else if c = ',' then csvScan rest .out [] (row ++ [String.mk f]) acc
      else if c = '\n' then csvScan rest .out [] [] (acc ++ [row ++ [String.mk f]])
      else csvScan rest .out (f ++ [c]) row acc
    | .out =>
      if c = '"' ∧ f = [] then csvScan rest .inq f row acc
      else if c = ',' then csvScan rest .out [] (row ++ [String.mk f]) acc
      else if c = '\n' then csvScan rest .out [] [] (acc ++ [row ++ [String.mk f]])
      else csvScan rest .out (f ++ [c]) row acc

/-- Split CSV text into records of raw field strings. -/
def splitRecords (s : String) : List (List String) :=
  csvScan (normNewlines s.data) .out [] [] []

/-! ## Records and the Papa.parse pipeline -/

/-- A parsed row / stored record: a JavaScript object as an association list
in property-creation order (later assignment to an existing key overwrites
in place, as in JS). -/
abbrev RecordJS := List (String × JsVal)

/-- Property read `r[k]`. -/
def getField (r : RecordJS) (k : String) : Option JsVal :=
  (List.find? (fun kv => kv.1 = k) r).map (fun kv => kv.2)

/-- Property write `r[k] = v` (overwrite in place, else append). -/
def setField (r : RecordJS) (k : String) (v : JsVal) : RecordJS :=
  if (List.any r (fun kv => kv.1 = k)) then
    List.map (fun kv => if kv.1 = k then (k, v) else kv) r
  else r ++ [(k, v)]

/-- Build a row object from the header and one record's cells
(`header: true`; cells beyond the header land in `__parsed_extra` and are
not modelled; missing cells leave the property absent). `doTrim` is the
`transform: (v) => v.trim()` option. -/
def mkRecord (fields : List String) (cells : List String) (doTrim : Bool) : RecordJS :=
  (fields.zip cells).foldl
    (fun r kv => setField r kv.1 (dynamicType (if doTrim then jsTrim kv.2 else kv.2))) []

/-- Result of `Papa.parse`: `meta.fields`, `data`, and the rows whose field
count mismatches the header (Papa's `FieldMismatch` errors; its other error
kinds concern quote recovery and are not modelled — the scanner is lenient). -/
structure PapaOut where
  fields : List String
  data : List RecordJS
  errors : List Nat

/-- Model of `Papa.parse(content, { header: true, dynamicTyping: true,
skipEmptyLines: true })`, with `transform`/`transformHeader` trimming when
`doTrim` is set (fileService.js sets them; useAtlasStore.js does not). -/
def papaParse (doTrim : Bool) (content : String) : PapaOut :=
  let rows := (splitRecords content).filter (fun r => r ≠ [""])
  match rows with
  | [] => ⟨[], [], []⟩
  | hdr :: body =>
    let fields := if doTrim then hdr.map jsTrim else hdr
    ⟨fields, body.map (fun r => mkRecord fields r doTrim),
      (body.zip (List.range body.length)).filterMap
        (fun p => if p.1.length ≠ fields.length then some p.2 else none)⟩

/-! ## FileService (fileService.js) -/

namespace FileService

/-- The three required CSV fields. -/
def requiredFields : List String := ["uniqueId", "placeName", "adminLevel"]

/-- Strip a leading byte-order marker (`content.replace(/^﻿/, '')`). -/
def stripBOM (s : String) : String :=
  match s.data with
  | '\uFEFF' :: rest => String.mk rest
  | _ => s

/-- Truthiness of a possibly-absent property. -/
def truthyO : Option JsVal → Bool
  | some v => truthy v
  | none => false

/-- JavaScript `String(x)` where `x` may be `undefined`. -/
def jsToStringO : Option JsVal → String
  | some v => jsToString v
  | none => "undefined"

/-- A row survives validation when the three required properties are truthy. -/
def rowValid (r : RecordJS) : Bool :=
  truthyO (getField r "uniqueId") && truthyO (getField r "placeName") &&
    truthyO (getField r "adminLevel")

/-- Normalization of a surviving row: required fields coerced to trimmed
strings, `dateMarked` defaulted to the current timestamp when falsy. -/
def normalizeRow (now : String) (r : RecordJS) : RecordJS :=
  let r1 := setField r "uniqueId" (.vStr (jsTrim (jsToStringO (getField r "uniqueId"))))
  let r2 := setField r1 "placeName" (.vStr (jsTrim (jsToStringO (getField r "placeName"))))
  let r3 := setField r2 "adminLevel" (.vStr (jsTrim (jsToStringO (getField r "adminLevel"))))
  setField r3 "dateMarked"
    (match getField r "dateMarked" with
     | some v => if truthy v then v else .vStr now
     | none => .vStr now)

/-- Result of a successful parse. -/
structure ParseOut where
  data : List RecordJS
  invalidRows : Nat
deriving DecidableEq

/-- `FileService.parseCSV`, at the level of the file contents (the
`FileReader` wrapper is asynchronous I/O; `now` is the injected clock for
`new Date().toISOString()`). -/
def parseCSV (content : String) (now : String) : Except String ParseOut :=
  if jsTrim content = "" then .error "ファイルが空です"
  else
    let out := papaParse true (stripBOM content)
    let missing := requiredFields.filter (fun f => !(out.fields.contains f))
    if missing ≠ [] then
      .error ("CSVファイルに必須フィールドがありません: " ++ String.intercalate ", " missing)
    else
      let validData := (out.data.filter rowValid).map (normalizeRow now)
      if validData = [] then .error "有効なデータが見つかりませんでした"
      else .ok ⟨validData, out.data.length - validData.length⟩

/-- Default export field order. -/
def defaultFields : List String :=
  ["uniqueId", "placeName", "adminLevel", "dateMarked", "countryCodeISO", "regionCodeISO"]

/-- `cleanItem[field]`: `null`/absent become the empty string, every other
value (including `false` and `0`) is kept. -/
def cleanField (item : RecordJS) (f : String) : JsVal :=
  match getField item f with
  | some v => if v = .vNull then .vStr "" else v
  | none => .vStr ""

/-- `Papa.unparse` cell stringification: `null`/`undefined` become the empty
string, other values their `toString`. -/
def cellToString : JsVal → String
  | .vNull => ""
  | v => jsToString v

/-- `FileService.generateCSV(data, fields)`; `data = none` models a missing
argument (`!data`). -/
def generateCSV (data : Option (List RecordJS)) (fields : Option (List String)) :
    Except String String :=
  let fail := Except.error
    "CSVの生成中にエラーが発生しました: エクスポートするデータがありません"
  match data with
  | none => fail
  | some l =>
    if l = [] then fail
    else
      let flds := fields.getD defaultFields
      let cleanData := l.map (fun item => flds.map (fun f => cleanField item f))
      .ok (papaUnparse (flds :: cleanData.map (fun row => row.map cellToString)))

/-- The wall-clock date parts used for the export file name (`getMonth()+1`
already applied to `month`). -/
structure JsDate where
  year : Nat
  month : Nat
  day : Nat
  hour : Nat
  minute : Nat

/-- `String(n).padStart(2, '0')`. -/
def pad2 (n : Nat) : String :=
  if (toString n).length < 2 then "0" ++ toString n else toString n

/-- Default download file name `MyWorldAtlas_Export_<YYYYMMDD>_<HHMM>.csv`. -/
def exportFileName (d : JsDate) : String :=
  "MyWorldAtlas_Export_" ++ toString d.year ++ pad2 d.month ++ pad2 d.day ++
    "_" ++ pad2 d.hour ++ pad2 d.minute ++ ".csv"

/-- What `FileService.downloadCSV` hands to the browser download collaborator:
the blob contents and the download file name. -/
structure DownloadOut where
  fileName : String
  contents : String
deriving DecidableEq

/-- `FileService.downloadCSV(csvData, fileName)`: rejects empty data, defaults
the file name from the clock, and prefixes the UTF-8 byte-order marker. -/
def downloadCSV (csvData : String) (fileName : Option String) (now : JsDate) :
    Except String DownloadOut :=
  if csvData = "" then
    .error "ファイルのダウンロード中にエラーが発生しました: ダウンロードするデータがありません"
  else .ok ⟨fileName.getD (exportFileName now), "\uFEFF" ++ csvData⟩

/-- `FileService.exportToCSV(data, fields, fileName)`. -/
def exportToCSV (data : Option (List RecordJS)) (fields : Option (List String))
    (fileName : Option String) (now : JsDate) : Except String DownloadOut :=
  (generateCSV data fields).bind (fun csv => downloadCSV csv fileName now)

end FileService

/-! ## The Zustand store (useAtlasStore.js) -/

namespace AtlasStore

/-- Toast state (JS fields `show` / `type`; `show` and `type` are renamed
`visible` / `kind` because they collide with Lean keywords). -/
structure Toast where
  visible : Bool
  message : String
  kind : String
deriving DecidableEq

/-- Store state plus the IndexedDB `visitedPlaces` object store (keyPath
`uniqueId`), whose keyed contents `db` the actions transact against. -/
structure AtlasState where
  visitedPlaces : List RecordJS
  selectedPlace : Option RecordJS
  isLoading : Bool
  error : Option String
  toast : Toast
  db : List RecordJS
deriving DecidableEq

/-- The initial store state over an empty database. -/
def initState : AtlasState :=
  ⟨[], none, false, none, ⟨false, "", "info"⟩, []⟩

/-- IndexedDB `put` on keyPath `uniqueId`: upsert. -/
def dbPut (db : List RecordJS) (rec : RecordJS) : List RecordJS :=
  if db.any (fun r => getField r "uniqueId" = getField rec "uniqueId") then
    db.map (fun r => if getField r "uniqueId" = getField rec "uniqueId" then rec else r)
  else db ++ [rec]

/-- The argument of `markPlaceAsVisited` after destructuring (absent
properties are `none`; `some ""` is present-but-falsy). -/
structure PlaceData where
  uniqueId : Option String
  placeName : Option String
  adminLevel : Option String
  countryCodeISO : Option String
  regionCodeISO : Option String

/-- Truthiness of a destructured string property. -/
def truthyS (o : Option String) : Bool := o.getD "" ≠ ""

/-- `uniqueId.split('-')[0]`. -/
def splitDashHead (s : String) : String := (s.splitOn "-").headD ""

/-- JavaScript `a || b` for the destructured optional codes. -/
def orDefault (o : Option String) (d : String) : String :=
  match o with
  | some s => if s = "" then d else s
  | none => d

/-- The record `markPlaceAsVisited` builds and stores. -/
def newPlace (pd : PlaceData) (now : String) : RecordJS :=
  [("uniqueId", .vStr (pd.uniqueId.getD "")),
   ("placeName", .vStr (pd.placeName.getD "")),
   ("adminLevel", .vStr (pd.adminLevel.getD "")),
   ("dateMarked", .vStr now),
   ("countryCodeISO", .vStr (orDefault pd.countryCodeISO (splitDashHead (pd.uniqueId.getD "")))),
   ("regionCodeISO", .vStr (orDefault pd.regionCodeISO (pd.uniqueId.getD "")))]

/-- `markPlaceAsVisited(placeData)`; `now` is `new Date().toISOString()`.
The model returns the state after the action settles (the 3-second toast
auto-dismiss timer is transient and not part of the settled state). -/
def markPlaceAsVisited (s : AtlasState) (pd : PlaceData) (now : String) : AtlasState :=
  if ¬ (truthyS pd.uniqueId ∧ truthyS pd.placeName ∧ truthyS pd.adminLevel) then
    { s with error := some "必須情報が不足しています",
             toast := ⟨true, "必須情報が不足しています", "error"⟩ }
  else
    let np := newPlace pd now
    { visitedPlaces := s.visitedPlaces ++ [np],
      selectedPlace := some np,
      isLoading := false,
      error := s.error,
      toast := ⟨true, pd.placeName.getD "" ++ "を訪問済みに登録しました", "success"⟩,
      db := dbPut s.db np }

/-- Failure branch shared by `importFromCSV`'s catch handler. -/
def failState (s : AtlasState) (msg : String) : AtlasState :=
  { s with error := some msg, isLoading := false, toast := ⟨true, msg, "error"⟩ }

/-- `importFromCSV`, at the level of the read file contents.  The store's own
`Papa.parse` call passes no `transform`/`transformHeader` (`doTrim = false`)
and aborts on any parse error (including field-count mismatches).  Rows are
`put` exactly as parsed; the model's `put` always succeeds, so
`success = validData.length` and `skipped = 0`.  The catch handler's message
detail (the classified error text) is summarized by the thrown message. -/
def importFromCSV (s : AtlasState) (content : String) : AtlasState :=
  let out := papaParse false content
  if out.errors ≠ [] then failState s "CSVの解析中にエラーが発生しました"
  else
    let validData := out.data.filter FileService.rowValid
    if validData = [] then failState s "有効なデータが見つかりませんでした"
    else
      let db2 := validData.foldl dbPut s.db
      { s with db := db2, visitedPlaces := db2, isLoading := false,
               error := s.error,
               toast := ⟨true, "インポート完了: " ++ toString validData.length ++
                               "件成功、0件スキップ", "success"⟩ }

end AtlasStore

/-! ## MapService (mapService.js) -/

namespace MapService

/-- A fetched GeoJSON body: `features` is `some` exactly when the payload
has an array under `features` (`Array.isArray(data.features)`). -/
structure GeoJson where
  features : Option (List Nat)
deriving DecidableEq

/-- The in-memory cache: payload entries (`countries`, plus whatever the
tests poke in) and the shared fetch timestamp.  `lastFetched` is held apart
from the payload entries. -/
structure GeoCache where
  entries : List (String × Option GeoJson)
  lastFetched : Option Int
deriving DecidableEq

/-- The constructor's cache: `{ countries: null, lastFetched: null }`. -/
def initCache : GeoCache := ⟨[("countries", none)], none⟩

/-- `this.geoDataCache[key]` (absent key gives `undefined`). -/
def lookupEntry (c : GeoCache) (k : String) : Option (Option GeoJson) :=
  (List.find? (fun kv => kv.1 = k) c.entries).map (fun kv => kv.2)

/-- Truthiness of `this.geoDataCache[key]`. -/
def entryTruthy (c : GeoCache) (k : String) : Bool :=
  match lookupEntry c k with
  | some (some _) => true
  | _ => false

/-- `this.geoDataCache[key] = v` (JS property assignment: upsert). -/
def setEntry (es : List (String × Option GeoJson)) (k : String) (v : Option GeoJson) :
    List (String × Option GeoJson) :=
  if es.any (fun kv => kv.1 = k) then
    es.map (fun kv => if kv.1 = k then (k, v) else kv)
  else es ++ [(k, v)]

/-- Cache expiry: 24 hours in milliseconds. -/
def cacheExpiration : Int := 24 * 60 * 60 * 1000

/-- Retry configuration. -/
def maxRetries : Nat := 3

/-- Base backoff delay in milliseconds. -/
def retryDelay : Nat := 1000

/-- `isCacheValid(cacheKey)` at time `now` (milliseconds). -/
def isCacheValid (c : GeoCache) (now : Int) (k : String) : Bool :=
  match lookupEntry c k, c.lastFetched with
  | some (some _), some t => now - t < cacheExpiration
  | _, _ => false

/-- `clearCache(cacheKey?)`: a truthy key with a truthy entry clears that
entry; otherwise every payload entry is cleared; the shared timestamp is
always reset. -/
def clearCache (c : GeoCache) (k : Option String) : GeoCache :=
  let entries :=
    match k with
    | some key =>
      if key ≠ "" ∧ entryTruthy c key then setEntry c.entries key none
      else c.entries.map (fun kv => (kv.1, none))
    | none => c.entries.map (fun kv => (kv.1, none))
  ⟨entries, none⟩

/-- One network attempt's outcome: a transport / HTTP / JSON failure with
its message, or a fetched body (`none` models a falsy JSON document). -/
abbrev FetchOutcome := Except String (Option GeoJson)

/-- Payload validation: `data && data.features && Array.isArray(data.features)`. -/
def validPayload : Option GeoJson → Bool
  | some g => g.features.isSome
  | none => false

/-- Whether an attempt outcome lands in the `catch` block (transport error
or invalid payload shape). -/
def attemptFailed (o : FetchOutcome) : Bool :=
  match o with
  | .error _ => true
  | .ok p => !validPayload p

/-- The message the `catch` block sees for attempt outcome `o`. -/
def attemptMsg (o : FetchOutcome) : String :=
  match o with
  | .error m => m
  | .ok _ => "無効なGeoJSONデータです"

/-- Observable result of `getCountriesGeoJson`: the returned or thrown
value, the cache afterwards, the backoff delays awaited, and the number of
fetch attempts performed. -/
structure GeoFetchOut where
  result : Except String GeoJson
  cache : GeoCache
  delays : List Nat
  fetches : Nat
deriving DecidableEq

/-- The retry loop (`while (retries < this.maxRetries)`), with the attempt
outcomes supplied by the oracle `att` and the success time by `now`. -/
def geoAttempts (att : Nat → FetchOutcome) (c : GeoCache) (now : Int) (retries : Nat) :
    GeoFetchOut :=
  if retries < maxRetries then
    let outcome := att retries
    match outcome with
    | .ok p =>
      if validPayload p then
        match p with
        | some g =>
          ⟨.ok g, ⟨setEntry c.entries "countries" (some g), some now⟩, [], 1⟩
        | none => ⟨.error "", c, [], 1⟩   -- unreachable: validPayload none = false
      else
        let r2 := retries + 1
        if r2 ≥ maxRetries then
          ⟨.error ("国境データの取得に" ++ toString r2 ++ "回失敗しました: " ++ attemptMsg outcome),
            c, [], 1⟩
        else
          let rest := geoAttempts att c now r2
          ⟨rest.result, rest.cache, retryDelay * r2 :: rest.delays, rest.fetches + 1⟩
    | .error _ =>
      let r2 := retries + 1
      if r2 ≥ maxRetries then
        ⟨.error ("国境データの取得に" ++ toString r2 ++ "回失敗しました: " ++ attemptMsg outcome),
          c, [], 1⟩
      else
        let rest := geoAttempts att c now r2
        ⟨rest.result, rest.cache, retryDelay * r2 :: rest.delays, rest.fetches + 1⟩
  else ⟨.error "", c, [], 0⟩   -- loop exit without return: unreachable for retries = 0
termination_by maxRetries - retries
decreasing_by all_goals omega

/-- `getCountriesGeoJson()`: serve a valid cache entry without fetching,
else run the retry loop. -/
def getCountriesGeoJson (att : Nat → FetchOutcome) (c : GeoCache) (now : Int) : GeoFetchOut :=
  if isCacheValid c now "countries" then
    ⟨match lookupEntry c "countries" with
      | some (some g) => .ok g
      | _ => .error "",   -- unreachable: isCacheValid requires a truthy entry
      c, [], 0⟩
  else geoAttempts att c now 0

end MapService

/-! ## Derived notions used by the round-trip statement -/

/-- LF-only record join (what the CRLF join normalizes to). -/
def joinRowsLF : List (List Char) → List Char
  | [] => []
  | [r] => r
  | r :: rest => r ++ '\n' :: joinRowsLF rest

/-- The canonical string a cell value settles to: dynamic typing followed by
`String(...)` and a trim (the composition `parseCSV` applies to required
fields). -/
def canonOf (t : String) : String := jsTrim (jsToString (dynamicType t))

/-- The required-field triple of a row. -/
def reqTriple (r : RecordJS) : Option JsVal × Option JsVal × Option JsVal :=
  (getField r "uniqueId", getField r "placeName", getField r "adminLevel")

/-- The default-field cells `generateCSV` emits for one record. -/
def cellsOf (r : RecordJS) : List String :=
  FileService.defaultFields.map (fun f => FileService.cellToString (FileService.cleanField r f))

/-! # Helper lemmas -/

namespace MapService

/-- A cache with a reset timestamp is never valid. -/
theorem isCacheValid_no_timestamp (es : List (String × Option GeoJson)) (now : Int) (k : String) :
    isCacheValid ⟨es, none⟩ now k = false := by
  unfold isCacheValid
  cases h : lookupEntry ⟨es, none⟩ k with
  | none => rfl
  | some o => cases o <;> rfl

/-- Reading back the entry just assigned. -/
theorem lookupEntry_setEntry (es : List (String × Option GeoJson)) (k : String)
    (v : Option GeoJson) (t : Option Int) :
    lookupEntry ⟨setEntry es k v, t⟩ k = some v := by
  unfold lookupEntry
  induction es with
  | nil => simp [setEntry]
  | cons a rest ih =>
    by_cases hk : a.1 = k
    · simp [setEntry, List.any_cons, hk, List.find?]
    · simp only [setEntry, List.any_cons] at *
      by_cases hr : rest.any (fun kv => kv.1 = k)
      · simp [hk, hr, List.find?_cons, setEntry] at ih ⊢
        simpa [hk, hr, setEntry] using ih
      · simp [hk, hr, List.find?_cons, setEntry] at ih ⊢
        simpa [hk, hr, setEntry] using ih

/-- Unfolding one failed attempt that is not the last. -/
theorem geoAttempts_fail_step (att : Nat → FetchOutcome) (c : GeoCache) (now : Int)
    (r : Nat) (h : attemptFailed (att r) = true) (h2 : r + 1 < maxRetries) :
    geoAttempts att c now r =
      ⟨(geoAttempts att c now (r + 1)).result, (geoAttempts att c now (r + 1)).cache,
        retryDelay * (r + 1) :: (geoAttempts att c now (r + 1)).delays,
        (geoAttempts att c now (r + 1)).fetches + 1⟩ := by
  rw [geoAttempts]
  have hr : r < maxRetries := by omega
  have h3 : ¬ (r + 1 ≥ maxRetries) := by omega
  cases ho : att r with
  | error m => simp [hr, ho, h3]
  | ok p =>
    have hv : validPayload p = false := by
      simpa [attemptFailed, ho] using h
    simp [hr, ho, hv, h3]

/-- Unfolding the last failed attempt. -/
theorem geoAttempts_fail_last (att : Nat → FetchOutcome) (c : GeoCache) (now : Int)
    (r : Nat) (h : attemptFailed (att r) = true) (h2 : r + 1 = maxRetries) :
    geoAttempts att c now r =
      ⟨.error ("国境データの取得に" ++ toString (r + 1) ++ "回失敗しました: " ++ attemptMsg (att r)),
        c, [], 1⟩ := by
  rw [geoAttempts]
  have hr : r < maxRetries := by omega
  have h3 : r + 1 ≥ maxRetries := by omega
  cases ho : att r with
  | error m => simp [hr, ho, h3, attemptMsg]
  | ok p =>
    have hv : validPayload p = false := by
      simpa [attemptFailed, ho] using h
    simp [hr, ho, hv, h3, attemptMsg]

end MapService

/-! # Claim theorems: MapService -/

/-- C6: when every attempt up to the retry maximum fails (transport failure
or a payload without a feature array), `getCountriesGeoJson` performs 3
fetch attempts with backoff delays `retryDelay * 1, retryDelay * 2` between
them, rejects with one final error naming the attempt count, and leaves the
cache entry and timestamp unmutated; in particular an invalid payload is
rejected and never cached. -/
theorem c6_retry_exhaustion (att : Nat → MapService.FetchOutcome) (c : MapService.GeoCache)
    (now : Int) (hmiss : MapService.isCacheValid c now "countries" = false)
    (hfail : ∀ i, i < MapService.maxRetries → MapService.attemptFailed (att i) = true) :
    MapService.getCountriesGeoJson att c now =
      ⟨.error ("国境データの取得に3回失敗しました: " ++ MapService.attemptMsg (att 2)), c,
        [MapService.retryDelay * 1, MapService.retryDelay * 2], 3⟩ := by
  unfold MapService.getCountriesGeoJson
  rw [hmiss]
  have e0 := MapService.geoAttempts_fail_step att c now 0 (hfail 0 (by decide)) (by decide)
  have e1 := MapService.geoAttempts_fail_step att c now 1 (hfail 1 (by decide)) (by decide)
  have e2 := MapService.geoAttempts_fail_last att c now 2 (hfail 2 (by decide)) (by decide)
  rw [e0, e1, e2]
  simp
  rw [show ("国境データの取得に" ++ toString (3 : Nat) ++ "回失敗しました: ") =
        "国境データの取得に3回失敗しました: " from by decide]

/-- C6 witness: concrete run in which every attempt has a transport failure. -/
theorem c6_retry_exhaustion_witness :
    MapService.isCacheValid MapService.initCache 0 "countries" = false ∧
    MapService.getCountriesGeoJson (fun _ => .error "fetch failed") MapService.initCache 0 =
      ⟨.error "国境データの取得に3回失敗しました: fetch failed", MapService.initCache,
        [1000, 2000], 3⟩ := by
  refine ⟨by decide, ?_⟩
  have h := c6_retry_exhaustion (fun _ => .error "fetch failed") MapService.initCache 0
    (by decide) (fun i _ => rfl)
  simpa [MapService.attemptMsg, MapService.retryDelay] using h

/-- C7: `isCacheValid` is false after `clearCache()`; after a successful
fetch it is true at the fetch instant and valid exactly while the elapsed
time is below the expiry; and whenever the cached entry is valid,
`getCountriesGeoJson` serves the cached payload with no fetch attempt, no
delay and no cache mutation. -/
theorem c7_cache_validity (c : MapService.GeoCache) (att : Nat → MapService.FetchOutcome)
    (now now2 : Int) (g : MapService.GeoJson)
    (hmiss : MapService.isCacheValid c now "countries" = false)
    (hfetch : att 0 = .ok (some g)) (hfeat : g.features.isSome = true) :
    (∀ (c0 : MapService.GeoCache) (now0 : Int) (k : String),
        MapService.isCacheValid (MapService.clearCache c0 none) now0 k = false) ∧
    ((MapService.getCountriesGeoJson att c now).result = .ok g ∧
      (MapService.getCountriesGeoJson att c now).cache.lastFetched = some now ∧
      MapService.isCacheValid (MapService.getCountriesGeoJson att c now).cache now2 "countries" =
        decide (now2 - now < MapService.cacheExpiration) ∧
      MapService.isCacheValid (MapService.getCountriesGeoJson att c now).cache now "countries" =
        true) ∧
    (∀ (c1 : MapService.GeoCache) (now1 : Int),
        MapService.isCacheValid c1 now1 "countries" = true →
        (MapService.getCountriesGeoJson att c1 now1).fetches = 0 ∧
        (MapService.getCountriesGeoJson att c1 now1).cache = c1 ∧
        (MapService.getCountriesGeoJson att c1 now1).delays = [] ∧
        ∃ gg, MapService.lookupEntry c1 "countries" = some (some gg) ∧
          (MapService.getCountriesGeoJson att c1 now1).result = .ok gg) := by
  refine ⟨?_, ?_, ?_⟩
  · intro c0 now0 k
    unfold MapService.clearCache
    cases c0 with
    | mk es t => exact MapService.isCacheValid_no_timestamp _ now0 k
  · have hstep : MapService.getCountriesGeoJson att c now =
        ⟨.ok g, ⟨MapService.setEntry c.entries "countries" (some g), some now⟩, [], 1⟩ := by
      unfold MapService.getCountriesGeoJson
      rw [hmiss]
      rw [MapService.geoAttempts]
      simp [hfetch, MapService.validPayload, hfeat, MapService.maxRetries]
    rw [hstep]
    have hl := MapService.lookupEntry_setEntry c.entries "countries" (some g) (some now)
    refine ⟨rfl, rfl, ?_, ?_⟩
    · unfold MapService.isCacheValid
      rw [hl]
    · unfold MapService.isCacheValid
      rw [hl]
      simp [MapService.cacheExpiration]
  · intro c1 now1 hvalid
    have hl : ∃ gg, MapService.lookupEntry c1 "countries" = some (some gg) := by
      unfold MapService.isCacheValid at hvalid
      cases h1 : MapService.lookupEntry c1 "countries" with
      | none => rw [h1] at hvalid; simp at hvalid
      | some o =>
        cases o with
        | none => rw [h1] at hvalid; simp at hvalid
        | some gg => exact ⟨gg, rfl⟩
    obtain ⟨gg, hgg⟩ := hl
    unfold MapService.getCountriesGeoJson
    rw [hvalid]
    simp [hgg]

/-- C7 witness: a concrete miss-then-fetch run and a concrete cache hit. -/
theorem c7_cache_validity_witness :
    MapService.isCacheValid MapService.initCache 0 "countries" = false ∧
    ((fun _ => Except.ok (some (⟨some [7]⟩ : MapService.GeoJson)) :
        Nat → MapService.FetchOutcome) 0 = .ok (some ⟨some [7]⟩)) ∧
    (⟨some [7]⟩ : MapService.GeoJson).features.isSome = true ∧
    MapService.isCacheValid
      (MapService.getCountriesGeoJson (fun _ => .ok (some ⟨some [7]⟩)) MapService.initCache 0).cache
      MapService.cacheExpiration "countries" = false := by
  refine ⟨by decide, rfl, by decide, ?_⟩
  have h := c7_cache_validity MapService.initCache (fun _ => .ok (some ⟨some [7]⟩)) 0
    MapService.cacheExpiration ⟨some [7]⟩ (by decide) rfl (by decide)
  have h2 := h.2.1.2.2.1
  rw [h2]
  decide

/-- C10: any `clearCache` call resets the shared timestamp, making
`isCacheValid` false for every key; and a key whose entry is absent or null
takes the clear-all branch, clearing every payload entry. -/
theorem c10_clearCache (c : MapService.GeoCache) (k : Option String) (now : Int)
    (k' key : String)
    (habs : MapService.lookupEntry c key = none ∨ MapService.lookupEntry c key = some none) :
    (MapService.clearCache c k).lastFetched = none ∧
    MapService.isCacheValid (MapService.clearCache c k) now k' = false ∧
    (MapService.clearCache c (some key)).entries = c.entries.map (fun kv => (kv.1, none)) := by
  refine ⟨rfl, ?_, ?_⟩
  · unfold MapService.clearCache
    exact MapService.isCacheValid_no_timestamp _ now k'
  · have ht : MapService.entryTruthy c key = false := by
      unfold MapService.entryTruthy
      rcases habs with h | h <;> rw [h]
    unfold MapService.clearCache
    simp [ht]

/-- C10 witness: clearing the cleared `countries` entry clears everything. -/
theorem c10_clearCache_witness :
    (MapService.lookupEntry MapService.initCache "countries" = none ∨
      MapService.lookupEntry MapService.initCache "countries" = some none) ∧
    ((MapService.clearCache MapService.initCache (some "countries")).lastFetched = none ∧
      MapService.isCacheValid (MapService.clearCache MapService.initCache (some "countries"))
        5 "countries" = false ∧
      (MapService.clearCache MapService.initCache (some "countries")).entries =
        MapService.initCache.entries.map (fun kv => (kv.1, none))) :=
  ⟨Or.inr (by decide),
   c10_clearCache MapService.initCache (some "countries") 5 "countries" "countries"
     (Or.inr (by decide))⟩

/-! # Claim theorems: the store actions -/

/-- An upserted record is in the store afterwards. -/
theorem mem_dbPut (db : List RecordJS) (rec : RecordJS) : rec ∈ AtlasStore.dbPut db rec := by
  unfold AtlasStore.dbPut
  by_cases h : db.any (fun r => getField r "uniqueId" = getField rec "uniqueId")
  · simp only [h, if_true]
    rw [List.any_eq_true] at h
    obtain ⟨r, hr, hid⟩ := h
    rw [List.mem_map]
    refine ⟨r, hr, ?_⟩
    simp only [decide_eq_true_eq] at hid
    simp [hid]
  · simp [h]

/-- C8: on a `placeData` whose `uniqueId`, `placeName` or `adminLevel` is
absent or empty, `markPlaceAsVisited` writes nothing to the store, leaves
the in-memory list, selection and loading flag untouched, and only sets the
user-visible error and an error toast. -/
theorem c8_validation_fail_fast (s : AtlasStore.AtlasState) (pd : AtlasStore.PlaceData)
    (now : String)
    (h : ¬ (AtlasStore.truthyS pd.uniqueId ∧ AtlasStore.truthyS pd.placeName ∧
            AtlasStore.truthyS pd.adminLevel)) :
    (AtlasStore.markPlaceAsVisited s pd now).db = s.db ∧
    (AtlasStore.markPlaceAsVisited s pd now).visitedPlaces = s.visitedPlaces ∧
    (AtlasStore.markPlaceAsVisited s pd now).selectedPlace = s.selectedPlace ∧
    (AtlasStore.markPlaceAsVisited s pd now).isLoading = s.isLoading ∧
    (AtlasStore.markPlaceAsVisited s pd now).error = some "必須情報が不足しています" ∧
    (AtlasStore.markPlaceAsVisited s pd now).toast =
      ⟨true, "必須情報が不足しています", "error"⟩ := by
  unfold AtlasStore.markPlaceAsVisited
  simp [h]

/-- C8 witness: a `placeData` with an empty `placeName`. -/
theorem c8_validation_fail_fast_witness :
    ¬ (AtlasStore.truthyS (some "JP") ∧ AtlasStore.truthyS (some "") ∧
        AtlasStore.truthyS (some "Country")) ∧
    (AtlasStore.markPlaceAsVisited AtlasStore.initState
        ⟨some "JP", some "", some "Country", none, none⟩ "2024-01-01T00:00:00.000Z").db =
      AtlasStore.initState.db := by
  refine ⟨by decide, ?_⟩
  exact (c8_validation_fail_fast AtlasStore.initState
    ⟨some "JP", some "", some "Country", none, none⟩ "2024-01-01T00:00:00.000Z" (by decide)).1

/-- C1 (the code's behaviour at the failing input): marking the same valid
`uniqueId` twice leaves exactly one record with that id in the durable
store (the second write overwriting `dateMarked`), but two records with
that id in the in-memory `visitedPlaces` list — the append at the state
update never replaces an existing entry. -/
theorem c1_duplicate_in_memory :
    (((AtlasStore.markPlaceAsVisited
          (AtlasStore.markPlaceAsVisited AtlasStore.initState
            ⟨some "JP", some "Japan", some "Country", none, none⟩ "2024-01-01T00:00:00.000Z")
          ⟨some "JP", some "Japan", some "Country", none, none⟩
          "2024-01-02T00:00:00.000Z").visitedPlaces.filter
        (fun r => decide (getField r "uniqueId" = some (.vStr "JP")))).length = 2) ∧
    (((AtlasStore.markPlaceAsVisited
          (AtlasStore.markPlaceAsVisited AtlasStore.initState
            ⟨some "JP", some "Japan", some "Country", none, none⟩ "2024-01-01T00:00:00.000Z")
          ⟨some "JP", some "Japan", some "Country", none, none⟩
          "2024-01-02T00:00:00.000Z").db.filter
        (fun r => decide (getField r "uniqueId" = some (.vStr "JP")))).length = 1) ∧
    ((AtlasStore.markPlaceAsVisited
          (AtlasStore.markPlaceAsVisited AtlasStore.initState
            ⟨some "JP", some "Japan", some "Country", none, none⟩ "2024-01-01T00:00:00.000Z")
          ⟨some "JP", some "Japan", some "Country", none, none⟩
          "2024-01-02T00:00:00.000Z").db.head?.bind
        (fun r => getField r "dateMarked")) =
      some (.vStr "2024-01-02T00:00:00.000Z") := by
  decide

/-- C2 counterexample: a CSV import whose rows carry no `countryCodeISO`
column stores the rows exactly as parsed — the record enters the durable
store without any `countryCodeISO` (and without `regionCodeISO`), refuting
the claim that every record entering the store carries the derived codes. -/
theorem c2_import_no_derivation :
    ((AtlasStore.importFromCSV AtlasStore.initState
        "uniqueId,placeName,adminLevel\nJP-13,Tokyo,State").db.map
      (fun r => (getField r "uniqueId", getField r "countryCodeISO",
                 getField r "regionCodeISO"))) =
      [(some (.vStr "JP-13"), none, none)] := by
  decide

/-- C2 as amended: records created by `markPlaceAsVisited` always enter the
store and the in-memory list carrying `countryCodeISO` (the given one, or
the substring of `uniqueId` before the `-` separator, or `uniqueId` itself)
and `regionCodeISO` (the given one, or `uniqueId`); records imported from
CSV are stored as parsed, without any code derivation. -/
theorem c2_mark_derives_codes (s : AtlasStore.AtlasState) (pd : AtlasStore.PlaceData)
    (now : String)
    (h : AtlasStore.truthyS pd.uniqueId ∧ AtlasStore.truthyS pd.placeName ∧
         AtlasStore.truthyS pd.adminLevel) :
    (AtlasStore.markPlaceAsVisited s pd now).selectedPlace =
      some (AtlasStore.newPlace pd now) ∧
    AtlasStore.newPlace pd now ∈ (AtlasStore.markPlaceAsVisited s pd now).db ∧
    AtlasStore.newPlace pd now ∈ (AtlasStore.markPlaceAsVisited s pd now).visitedPlaces ∧
    getField (AtlasStore.newPlace pd now) "countryCodeISO" =
      some (.vStr (AtlasStore.orDefault pd.countryCodeISO
        (AtlasStore.splitDashHead (pd.uniqueId.getD "")))) ∧
    getField (AtlasStore.newPlace pd now) "regionCodeISO" =
      some (.vStr (AtlasStore.orDefault pd.regionCodeISO (pd.uniqueId.getD ""))) ∧
    getField (AtlasStore.newPlace pd now) "uniqueId" =
      some (.vStr (pd.uniqueId.getD "")) := by
  unfold AtlasStore.markPlaceAsVisited
  rw [if_neg (not_not_intro h)]
  refine ⟨rfl, mem_dbPut s.db (AtlasStore.newPlace pd now), by simp, ?_, ?_, ?_⟩
  · simp [AtlasStore.newPlace, getField, List.find?]
  · simp [AtlasStore.newPlace, getField, List.find?]
  · simp [AtlasStore.newPlace, getField, List.find?]

/-- C2 amended-claim witness: a concrete mark with no codes supplied. -/
theorem c2_mark_derives_codes_witness :
    (AtlasStore.truthyS (some "JP-13") ∧ AtlasStore.truthyS (some "Tokyo") ∧
      AtlasStore.truthyS (some "State")) ∧
    getField (AtlasStore.newPlace ⟨some "JP-13", some "Tokyo", some "State", none, none⟩
        "2024-01-01T00:00:00.000Z") "countryCodeISO" =
      some (.vStr (AtlasStore.orDefault none (AtlasStore.splitDashHead "JP-13"))) :=
  ⟨by decide,
   ((c2_mark_derives_codes AtlasStore.initState
      ⟨some "JP-13", some "Tokyo", some "State", none, none⟩ "2024-01-01T00:00:00.000Z"
      (by decide)).2.2.2.1)⟩

/-! # Claim theorems: export (C3, C9) -/

/-- The generator's output starts with the quoted header, so it is never
the empty string. -/
theorem papaUnparse_header_ne_empty (hdr : List String) (h : hdr ≠ []) (rows : List (List String)) :
    papaUnparse (hdr :: rows) ≠ "" := by
  unfold papaUnparse
  intro hcontra
  have hdata : (joinRows ((hdr :: rows).map (fun r => joinFields (r.map renderField)))) = [] := by
    have := congrArg String.data hcontra
    simpa using this
  have hjf : joinFields (hdr.map renderField) ≠ [] := by
    cases hdr with
    | nil => exact absurd rfl h
    | cons a t =>
      cases t with
      | nil => simp [joinFields, renderField]
      | cons b t2 => simp [joinFields, renderField]
  cases rows with
  | nil => simp [joinRows] at hdata; exact hjf hdata
  | cons r rs => simp [joinRows] at hdata

/-- C9: `generateCSV` fails on an empty or absent record list; on a
non-empty list it emits exactly the default six fields in order, every
field quoted (with internal quotes doubled), comma-delimited, with CRLF
line endings, and missing or null values rendered as the empty string. -/
theorem c9_generateCSV_format (data : List RecordJS) (h : data ≠ []) :
    FileService.generateCSV (some []) none =
      .error "CSVの生成中にエラーが発生しました: エクスポートするデータがありません" ∧
    FileService.generateCSV none none =
      .error "CSVの生成中にエラーが発生しました: エクスポートするデータがありません" ∧
    FileService.generateCSV (some data) none =
      .ok (String.mk (joinRows
        ((FileService.defaultFields ::
            data.map (fun r => FileService.defaultFields.map
              (fun f => FileService.cellToString (FileService.cleanField r f)))).map
          (fun row => joinFields (row.map renderField))))) ∧
    (∀ (r : RecordJS) (f : String), getField r f = none →
      FileService.cellToString (FileService.cleanField r f) = "") ∧
    (∀ (r : RecordJS) (f : String), getField r f = some .vNull →
      FileService.cellToString (FileService.cleanField r f) = "") := by
  refine ⟨rfl, rfl, ?_, ?_, ?_⟩
  · unfold FileService.generateCSV
    simp only [h, if_neg h]
    rw [papaUnparse]
    simp only [List.map_map, Option.getD_none]
    refine congrArg Except.ok (congrArg String.mk (congrArg joinRows (congrArg (List.cons _) ?_)))
    refine List.map_congr_left ?_
    intro a _
    simp [Function.comp, List.map_map]
  · intro r f hf
    simp [FileService.cleanField, hf, FileService.cellToString, jsToString]
  · intro r f hf
    simp [FileService.cleanField, hf, FileService.cellToString, jsToString]

/-- C9 witness: one record with a null `dateMarked` and missing codes. -/
theorem c9_generateCSV_format_witness :
    ([[("uniqueId", JsVal.vStr "JP"), ("placeName", JsVal.vStr "Japan"),
       ("adminLevel", JsVal.vStr "Country"), ("dateMarked", JsVal.vNull)]] :
      List RecordJS) ≠ [] ∧
    FileService.generateCSV
        (some [[("uniqueId", JsVal.vStr "JP"), ("placeName", JsVal.vStr "Japan"),
                ("adminLevel", JsVal.vStr "Country"), ("dateMarked", JsVal.vNull)]]) none =
      .ok ("\"uniqueId\",\"placeName\",\"adminLevel\",\"dateMarked\",\"countryCodeISO\",\"regionCodeISO\"\x0d\n\"JP\",\"Japan\",\"Country\",\"\",\"\",\"\"") := by
  refine ⟨by decide, ?_⟩
  have h := (c9_generateCSV_format
    [[("uniqueId", JsVal.vStr "JP"), ("placeName", JsVal.vStr "Japan"),
      ("adminLevel", JsVal.vStr "Country"), ("dateMarked", JsVal.vNull)]] (by decide)).2.2.1
  rw [h]
  decide

/-- C3: on a non-empty record list, `FileService.exportToCSV` hands the
file-download collaborator the generated CSV bytes prefixed with the UTF-8
byte-order marker, under the default file name
`MyWorldAtlas_Export_<YYYYMMDD>_<HHMM>.csv` built from the clock. -/
theorem c3_export_download (data : List RecordJS) (h : data ≠ []) (now : FileService.JsDate) :
    ∃ csv, FileService.generateCSV (some data) none = .ok csv ∧
      FileService.exportToCSV (some data) none none now =
        .ok ⟨"MyWorldAtlas_Export_" ++ toString now.year ++ FileService.pad2 now.month ++
              FileService.pad2 now.day ++ "_" ++ FileService.pad2 now.hour ++
              FileService.pad2 now.minute ++ ".csv",
             "﻿" ++ csv⟩ := by
  have hgen : FileService.generateCSV (some data) none =
      .ok (papaUnparse (FileService.defaultFields ::
        (data.map (fun item => FileService.defaultFields.map
          (fun f => FileService.cleanField item f))).map
            (fun row => row.map FileService.cellToString))) := by
    unfold FileService.generateCSV
    simp [h]
  refine ⟨_, hgen, ?_⟩
  unfold FileService.exportToCSV
  rw [hgen]
  show FileService.downloadCSV _ none now = _
  unfold FileService.downloadCSV
  rw [if_neg (papaUnparse_header_ne_empty FileService.defaultFields (by decide) _)]
  rfl

/-- C3 witness: concrete record and clock (2024-03-05 07:09). -/
theorem c3_export_download_witness :
    ([[("uniqueId", JsVal.vStr "JP")]] : List RecordJS) ≠ [] ∧
    ∃ csv, FileService.generateCSV (some [[("uniqueId", JsVal.vStr "JP")]]) none = .ok csv ∧
      FileService.exportToCSV (some [[("uniqueId", JsVal.vStr "JP")]]) none none
          ⟨2024, 3, 5, 7, 9⟩ =
        .ok ⟨"MyWorldAtlas_Export_" ++ toString 2024 ++ FileService.pad2 3 ++
              FileService.pad2 5 ++ "_" ++ FileService.pad2 7 ++ FileService.pad2 9 ++ ".csv",
             "﻿" ++ csv⟩ :=
  ⟨by decide, c3_export_download [[("uniqueId", JsVal.vStr "JP")]] (by decide) ⟨2024, 3, 5, 7, 9⟩⟩

/-! # Claim theorem: parseCSV error handling (C5) -/

/-- C5: `parseCSV` rejects empty or whitespace-only content with the
empty-file error; rejects a header lacking required fields with an error
naming every absent required field; drops (without failing) data rows whose
required values are missing, counting them in `invalidRows`; and rejects
with the no-valid-data error exactly when zero rows survive. -/
theorem c5_parseCSV_errors (content now : String) (hne : jsTrim content ≠ "") :
    (∀ n0, FileService.parseCSV "" n0 = .error "ファイルが空です") ∧
    (∀ c2 n2, jsTrim c2 = "" → FileService.parseCSV c2 n2 = .error "ファイルが空です") ∧
    (FileService.requiredFields.filter
        (fun f => !((papaParse true (FileService.stripBOM content)).fields.contains f)) ≠ [] →
      FileService.parseCSV content now =
        .error ("CSVファイルに必須フィールドがありません: " ++
          String.intercalate ", " (FileService.requiredFields.filter
            (fun f => !((papaParse true (FileService.stripBOM content)).fields.contains f))))) ∧
    (FileService.requiredFields.filter
        (fun f => !((papaParse true (FileService.stripBOM content)).fields.contains f)) = [] →
      (FileService.parseCSV content now = .error "有効なデータが見つかりませんでした" ↔
        (papaParse true (FileService.stripBOM content)).data.filter FileService.rowValid = []) ∧
      (∀ res, FileService.parseCSV content now = .ok res →
        res.data = ((papaParse true (FileService.stripBOM content)).data.filter
            FileService.rowValid).map (FileService.normalizeRow now) ∧
        res.invalidRows =
          (papaParse true (FileService.stripBOM content)).data.length - res.data.length ∧
        res.data.length = ((papaParse true (FileService.stripBOM content)).data.filter
            FileService.rowValid).length)) := by
  refine ⟨?_, ?_, ?_, ?_⟩
  · intro n0
    unfold FileService.parseCSV
    rw [if_pos (by decide)]
  · intro c2 n2 h2
    unfold FileService.parseCSV
    rw [if_pos h2]
  · intro hmiss
    unfold FileService.parseCSV
    rw [if_neg hne, if_pos hmiss]
  · intro hmiss
    constructor
    · unfold FileService.parseCSV
      rw [if_neg hne, if_neg (by simpa using hmiss)]
      constructor
      · intro hh
        by_cases he : ((papaParse true (FileService.stripBOM content)).data.filter
            FileService.rowValid).map (FileService.normalizeRow now) = []
        · simpa using he
        · rw [if_neg he] at hh
          exact absurd hh (by simp)
      · intro hh
        rw [if_pos (by simp [hh])]
    · intro res hres
      unfold FileService.parseCSV at hres
      rw [if_neg hne, if_neg (by simpa using hmiss)] at hres
      by_cases he : ((papaParse true (FileService.stripBOM content)).data.filter
          FileService.rowValid).map (FileService.normalizeRow now) = []
      · rw [if_pos he] at hres; exact absurd hres (by simp)
      · rw [if_neg he] at hres
        have := Except.ok.inj hres
        subst this
        refine ⟨rfl, rfl, by simp⟩

/-- C5 witness: the specification's three concrete examples — empty input,
a header missing all three required fields, and a fully valid file whose
single row survives with `uniqueId = "1"`. -/
theorem c5_parseCSV_errors_witness :
    jsTrim "uniqueId,placeName,adminLevel,dateMarked\n1,Tokyo,Prefecture,2023-10-01T00:00:00.000Z" ≠ "" ∧
    FileService.parseCSV "" "N" = .error "ファイルが空です" ∧
    FileService.parseCSV "id,name\n1,Tokyo" "N" =
      .error "CSVファイルに必須フィールドがありません: uniqueId, placeName, adminLevel" ∧
    ((FileService.parseCSV
        "uniqueId,placeName,adminLevel,dateMarked\n1,Tokyo,Prefecture,2023-10-01T00:00:00.000Z"
        "N").map (fun r => (r.data.map (fun row => getField row "uniqueId"), r.invalidRows))) =
      .ok ([some (.vStr "1")], 0) := by
  have h := c5_parseCSV_errors
    "uniqueId,placeName,adminLevel,dateMarked\n1,Tokyo,Prefecture,2023-10-01T00:00:00.000Z"
    "N" (by decide)
  have h2 := c5_parseCSV_errors "id,name\n1,Tokyo" "N" (by decide)
  refine ⟨by decide, h.1 "N", ?_, ?_⟩
  · have := h2.2.2.1 (by decide)
    rw [this]
    decide
  · have hm := h.2.2.2 (by decide)
    have hok : FileService.parseCSV
        "uniqueId,placeName,adminLevel,dateMarked\n1,Tokyo,Prefecture,2023-10-01T00:00:00.000Z"
        "N" = .ok ⟨(((papaParse true (FileService.stripBOM
          "uniqueId,placeName,adminLevel,dateMarked\n1,Tokyo,Prefecture,2023-10-01T00:00:00.000Z")).data.filter
            FileService.rowValid).map (FileService.normalizeRow "N")), 0⟩ := by decide
    rw [hok]
    decide

/-! # Tokenizer round-trip lemmas (towards C4) -/

/-- Rebuilding a string from its character data. -/
theorem mkData (s : String) : String.mk s.data = s := rfl

/-- Scanning the escaped body of a quoted field consumes it into the
current field and stops past the closing quote. -/
theorem scan_quoted (fd : List Char) (rest : List Char) (f0 : List Char)
    (row : List String) (acc : List (List String)) :
    csvScan (escQ fd ++ '"' :: rest) .inq f0 row acc =
      csvScan rest .postq (f0 ++ fd) row acc := by
  induction fd generalizing f0 with
  | nil => simp [escQ, csvScan]
  | cons c t ih =>
    by_cases hc : c = '"'
    · subst hc
      have h1 : escQ ('"' :: t) ++ '"' :: rest = '"' :: '"' :: (escQ t ++ '"' :: rest) := by
        simp [escQ]
      rw [h1]
      have h2 : csvScan ('"' :: '"' :: (escQ t ++ '"' :: rest)) .inq f0 row acc =
          csvScan (escQ t ++ '"' :: rest) .inq (f0 ++ ['"']) row acc := by
        simp [csvScan]
      rw [h2, ih]
      simp
    · have h1 : escQ (c :: t) ++ '"' :: rest = c :: (escQ t ++ '"' :: rest) := by
        simp [escQ, hc]
      rw [h1]
      have h2 : csvScan (c :: (escQ t ++ '"' :: rest)) .inq f0 row acc =
          csvScan (escQ t ++ '"' :: rest) .inq (f0 ++ [c]) row acc := by
        simp [csvScan, hc]
      rw [h2, ih]
      simp

/-- Scanning one rendered (fully quoted) field from the start of a field. -/
theorem scan_field (s : String) (rest : List Char) (row : List String)
    (acc : List (List String)) :
    csvScan (renderField s ++ rest) .out [] row acc =
      csvScan rest .postq s.data row acc := by
  have h1 : renderField s ++ rest = '"' :: (escQ s.data ++ '"' :: rest) := by
    simp [renderField]
  rw [h1]
  have h2 : csvScan ('"' :: (escQ s.data ++ '"' :: rest)) .out [] row acc =
      csvScan (escQ s.data ++ '"' :: rest) .inq [] row acc := by
    simp [csvScan]
  rw [h2, scan_quoted]
  simp

/-- Scanning a rendered row terminated by a line feed commits the row. -/
theorem scan_row_lf (fs : List String) (h : fs ≠ []) (rest : List Char)
    (row : List String) (acc : List (List String)) :
    csvScan (joinFields (fs.map renderField) ++ '\n' :: rest) .out [] row acc =
      csvScan rest .out [] [] (acc ++ [row ++ fs]) := by
  induction fs generalizing row with
  | nil => exact absurd rfl h
  | cons s t ih =>
    cases t with
    | nil =>
      simp only [List.map_cons, List.map_nil, joinFields]
      rw [scan_field]
      have h2 : csvScan ('\n' :: rest) .postq s.data row acc =
          csvScan rest .out [] [] (acc ++ [row ++ [String.mk s.data]]) := by
        simp [csvScan]
      rw [h2, mkData]
    | cons s2 t2 =>
      simp only [List.map_cons, joinFields]
      have h1 : (renderField s ++ ',' :: joinFields (renderField s2 :: List.map renderField t2)) ++
            '\n' :: rest =
          renderField s ++
            (',' :: (joinFields (renderField s2 :: List.map renderField t2) ++ '\n' :: rest)) := by
        simp
      rw [h1, scan_field]
      have h2 : csvScan
            (',' :: (joinFields (renderField s2 :: List.map renderField t2) ++ '\n' :: rest))
            .postq s.data row acc =
          csvScan (joinFields (renderField s2 :: List.map renderField t2) ++ '\n' :: rest)
            .out [] (row ++ [String.mk s.data]) acc := by
        simp [csvScan]
      rw [h2, mkData]
      have ih2 := ih (by simp) (row ++ [s])
      simp only [List.map_cons] at ih2
      rw [ih2]
      simp

/-- Scanning a rendered row at the end of input commits the row. -/
theorem scan_row_eof (fs : List String) (h : fs ≠ []) (row : List String)
    (acc : List (List String)) :
    csvScan (joinFields (fs.map renderField)) .out [] row acc = acc ++ [row ++ fs] := by
  induction fs generalizing row with
  | nil => exact absurd rfl h
  | cons s t ih =>
    cases t with
    | nil =>
      simp only [List.map_cons, List.map_nil, joinFields]
      have h1 := scan_field s [] row acc
      simp only [List.append_nil] at h1
      rw [h1]
      simp [csvScan, mkData]
    | cons s2 t2 =>
      simp only [List.map_cons, joinFields]
      have h1 : renderField s ++ ',' :: joinFields (renderField s2 :: List.map renderField t2) =
          renderField s ++ (',' :: (joinFields (renderField s2 :: List.map renderField t2))) := by
        simp
      rw [h1, scan_field]
      have h2 : csvScan (',' :: joinFields (renderField s2 :: List.map renderField t2))
            .postq s.data row acc =
          csvScan (joinFields (renderField s2 :: List.map renderField t2))
            .out [] (row ++ [String.mk s.data]) acc := by
        simp [csvScan]
      rw [h2, mkData]
      have ih2 := ih (by simp) (row ++ [s])
      simp only [List.map_cons] at ih2
      rw [ih2]
      simp

/-- Scanning LF-joined rendered rows recovers the rows. -/
theorem scan_rows (rows : List (List String)) (h : rows ≠ [])
    (hne : ∀ r ∈ rows, r ≠ []) (acc : List (List String)) :
    csvScan (joinRowsLF (rows.map (fun r => joinFields (r.map renderField)))) .out [] [] acc =
      acc ++ rows := by
  induction rows generalizing acc with
  | nil => exact absurd rfl h
  | cons r t ih =>
    cases t with
    | nil =>
      simp only [List.map_cons, List.map_nil, joinRowsLF]
      rw [scan_row_eof r (hne r (by simp)) [] acc]
      simp
    | cons r2 t2 =>
      simp only [List.map_cons, joinRowsLF]
      rw [scan_row_lf r (hne r (by simp)) _ [] acc]
      have ih2 := ih (by simp) (fun x hx => hne x (by simp [hx])) (acc ++ [[] ++ r])
      simp only [List.map_cons] at ih2
      rw [ih2]
      simp

/-! # Newline normalization lemmas (towards C4) -/

/-- A non-CR character passes through the normalizer. -/
theorem normNewlines_cons_ne (c : Char) (t : List Char) (h : c ≠ '\x0d') :
    normNewlines (c :: t) = c :: normNewlines t := by
  rw [normNewlines.eq_def]
  split
  all_goals simp_all

/-- The normalizer passes over a CR-free prefix. -/
theorem norm_append_noCR (l m : List Char) (h : '\x0d' ∉ l) :
    normNewlines (l ++ m) = l ++ normNewlines m := by
  induction l with
  | nil => rfl
  | cons c t ih =>
    have hc : c ≠ '\x0d' := by
      intro hh
      exact h (by simp [hh])
    rw [List.cons_append, normNewlines_cons_ne c _ hc, ih (by intro hh; exact h (by simp [hh]))]
    rfl

/-- A CR-free list is a fixed point of the normalizer. -/
theorem norm_id_noCR (l : List Char) (h : '\x0d' ∉ l) : normNewlines l = l := by
  have := norm_append_noCR l [] h
  simpa [normNewlines] using this

/-- CRLF-joined CR-free rows normalize to the LF join. -/
theorem norm_joinRows (rs : List (List Char)) (h : ∀ r ∈ rs, '\x0d' ∉ r) :
    normNewlines (joinRows rs) = joinRowsLF rs := by
  induction rs with
  | nil => rfl
  | cons r t ih =>
    cases t with
    | nil =>
      simp only [joinRows, joinRowsLF]
      exact norm_id_noCR r (h r (by simp))
    | cons r2 t2 =>
      simp only [joinRows, joinRowsLF]
      rw [norm_append_noCR r _ (h r (by simp))]
      have hcrlf : normNewlines ('\x0d' :: '\n' :: joinRows (List.map id (r2 :: t2))) =
          '\n' :: normNewlines (joinRows (List.map id (r2 :: t2))) := rfl
      simp only [List.map_id] at hcrlf
      rw [hcrlf, ih (fun x hx => h x (by simp [hx]))]

/-- Characters of an escaped field body come from the field or are quotes. -/
theorem mem_escQ (c : Char) (l : List Char) (h : c ∈ escQ l) : c ∈ l ∨ c = '"' := by
  induction l with
  | nil => simp [escQ] at h
  | cons a t ih =>
    by_cases ha : a = '"'
    · subst ha
      simp [escQ] at h
      rcases h with h | h
      · exact Or.inr h
      · rcases ih h with h2 | h2
        · exact Or.inl (by simp [h2])
        · exact Or.inr h2
    · simp [escQ, ha] at h
      rcases h with h | h
      · exact Or.inl (by simp [h])
      · rcases ih h with h2 | h2
        · exact Or.inl (by simp [h2])
        · exact Or.inr h2

/-- Characters of a joined field list come from a field or are the comma. -/
theorem mem_joinFields (c : Char) (L : List (List Char)) (h : c ∈ joinFields L) :
    (∃ x ∈ L, c ∈ x) ∨ c = ',' := by
  induction L with
  | nil => simp [joinFields] at h
  | cons x t ih =>
    cases t with
    | nil => exact Or.inl ⟨x, by simp, by simpa [joinFields] using h⟩
    | cons y t2 =>
      simp only [joinFields] at h
      rw [List.mem_append] at h
      rcases h with h | h
      · exact Or.inl ⟨x, by simp, h⟩
      · rw [List.mem_cons] at h
        rcases h with h | h
        · exact Or.inr h
        · rcases ih h with ⟨z, hz, hcz⟩ | h2
          · exact Or.inl ⟨z, by simp [hz], hcz⟩
          · exact Or.inr h2

/-- Characters of a rendered field come from the field or are quotes. -/
theorem mem_renderField (c : Char) (s : String) (h : c ∈ renderField s) :
    c ∈ s.data ∨ c = '"' := by
  simp only [renderField, List.mem_cons, List.mem_append] at h
  rcases h with h | h
  · exact Or.inr h
  · rcases h with h | h
    · exact mem_escQ c _ h
    · exact Or.inr (by simpa using h)

/-- A row rendered from CR-free fields is CR-free. -/
theorem noCR_rendered (fs : List String) (h : ∀ f ∈ fs, '\x0d' ∉ (f : String).data) :
    '\x0d' ∉ joinFields (fs.map renderField) := by
  intro hmem
  rcases mem_joinFields _ _ hmem with ⟨x, hx, hcx⟩ | h2
  · rw [List.mem_map] at hx
    obtain ⟨f, hf, hxf⟩ := hx
    subst hxf
    rcases mem_renderField _ f hcx with h3 | h3
    · exact h f hf h3
    · exact absurd h3 (by decide)
  · exact absurd h2 (by decide)

/-- Tokenizing the generated CSV text recovers exactly the rendered rows
(provided no field contains a carriage return — the generator's CRLF row
separators are then the only CRs in the text). -/
theorem splitRecords_papaUnparse (rows : List (List String)) (h : rows ≠ [])
    (hne : ∀ r ∈ rows, r ≠ [])
    (hcr : ∀ r ∈ rows, ∀ f ∈ r, '\x0d' ∉ (f : String).data) :
    splitRecords (papaUnparse rows) = rows := by
  unfold splitRecords papaUnparse
  have hdata : (String.mk (joinRows (rows.map (fun r => joinFields (r.map renderField))))).data =
      joinRows (rows.map (fun r => joinFields (r.map renderField))) := rfl
  rw [hdata]
  rw [norm_joinRows _ (by
    intro x hx
    rw [List.mem_map] at hx
    obtain ⟨r, hr, hxr⟩ := hx
    subst hxr
    exact noCR_rendered r (hcr r hr))]
  rw [scan_rows rows h hne []]
  simp

/-! # Number normal-form lemmas (towards C4) -/

/-- An all-digit list is consumed whole. -/
theorem takeDigits_all (l : List Char) (h : ∀ c ∈ l, c.isDigit = true) :
    takeDigits l = (l, []) := by
  induction l with
  | nil => rfl
  | cons c t ih =>
    simp only [takeDigits, if_pos (h c (by simp))]
    rw [ih (fun x hx => h x (by simp [hx]))]

/-- Digit consumption passes over an all-digit prefix. -/
theorem takeDigits_append (a m : List Char) (h : ∀ c ∈ a, c.isDigit = true) :
    takeDigits (a ++ m) = (a ++ (takeDigits m).1, (takeDigits m).2) := by
  induction a with
  | nil => simp
  | cons c t ih =>
    simp only [List.cons_append, takeDigits, if_pos (h c (by simp)), List.append_eq]
    rw [ih (fun x hx => h x (by simp [hx]))]

/-- Digit consumption stops at a non-digit. -/
theorem takeDigits_cons_not (c : Char) (t : List Char) (h : c.isDigit = false) :
    takeDigits (c :: t) = ([], c :: t) := by
  simp [takeDigits, h]

/-- Every consumed character is a digit. -/
theorem takeDigits_digits (l : List Char) : ∀ c ∈ (takeDigits l).1, c.isDigit = true := by
  induction l with
  | nil => simp [takeDigits]
  | cons c t ih =>
    by_cases hc : c.isDigit
    · simp only [takeDigits, if_pos hc]
      intro x hx
      rcases List.mem_cons.mp hx with h | h
      · exact h ▸ hc
      · exact ih x h
    · simp [takeDigits, hc]

/-- Leading-zero stripping skips a zero block. -/
theorem stripLeadZeros_replicate (k : Nat) (l : List Char) (p : Int) :
    stripLeadZeros (List.replicate k '0' ++ l) p = stripLeadZeros l (p - k) := by
  induction k generalizing p with
  | zero => simp
  | succ k2 ih =>
    have hshape : List.replicate (k2 + 1) '0' ++ l = '0' :: (List.replicate k2 '0' ++ l) := by
      simp [List.replicate_succ]
    have hstep : stripLeadZeros ('0' :: (List.replicate k2 '0' ++ l)) p =
        stripLeadZeros (List.replicate k2 '0' ++ l) (p - 1) := by
      simp [stripLeadZeros]
    rw [hshape, hstep, ih]
    congr 1
    omega

/-- Leading-zero stripping stops at a non-zero head. -/
theorem stripLeadZeros_head_ne (l : List Char) (p : Int) (h : l.head? ≠ some '0') :
    stripLeadZeros l p = (l, p) := by
  cases l with
  | nil => rfl
  | cons c t =>
    have : c ≠ '0' := by
      intro hh
      exact h (by simp [hh])
    simp [stripLeadZeros, this]

/-- Trailing-zero stripping removes an appended zero block. -/
theorem stripTrailZeros_append_zeros (l : List Char) (k : Nat) :
    stripTrailZeros (l ++ List.replicate k '0') = stripTrailZeros l := by
  induction l with
  | nil =>
    simp only [List.nil_append]
    induction k with
    | zero => rfl
    | succ k2 ih =>
      simp only [List.replicate_succ, stripTrailZeros]
      rw [ih]
      simp [stripTrailZeros]
  | cons c t ih =>
    simp only [List.cons_append, stripTrailZeros, List.append_eq]
    rw [ih]

/-- A list without a trailing zero is fixed by trailing-zero stripping. -/
theorem stripTrailZeros_of_last_ne (l : List Char) (h : l.getLast? ≠ some '0') :
    stripTrailZeros l = l := by
  induction l with
  | nil => rfl
  | cons c t ih =>
    cases t with
    | nil =>
      have : c ≠ '0' := by
        intro hh
        exact h (by simp [hh, List.getLast?])
      simp [stripTrailZeros, this]
    | cons d t2 =>
      have h2 : (d :: t2).getLast? ≠ some '0' := by
        intro hh
        apply h
        rw [List.getLast?_cons_cons]
        exact hh
      have hstep : stripTrailZeros (c :: d :: t2) =
          (match stripTrailZeros (d :: t2) with
            | [] => if c = '0' then [] else [c]
            | r => c :: r) := rfl
      rw [hstep, ih h2]

/-- The fallthrough case of the exponent parser. -/
theorem parseExpPart_no_e (l : List Char)
    (h : ∀ c, l.head? = some c → c ≠ 'e' ∧ c ≠ 'E') :
    parseExpPart l = some (0, l) := by
  cases l with
  | nil => rfl
  | cons c t =>
    have hc := h c rfl
    simp [parseExpPart, hc.1, hc.2]

/-- Characters of a rendered magnitude are digits or the decimal point. -/
theorem renderMag_chars (digits : List Char) (p : Int) (h : ∀ c ∈ digits, c.isDigit = true) :
    ∀ c ∈ renderMag digits p, c.isDigit = true ∨ c = '.' := by
  intro c hc
  unfold renderMag at hc
  by_cases h0 : digits = []
  · rw [if_pos h0] at hc
    simp at hc
    subst hc
    exact Or.inl (by decide)
  · rw [if_neg h0] at hc
    by_cases h1 : p ≤ 0
    · rw [if_pos h1] at hc
      rcases List.mem_cons.mp hc with h2 | h2
      · exact Or.inl (h2 ▸ by decide)
      · rcases List.mem_cons.mp h2 with h3 | h3
        · exact Or.inr h3
        · rcases List.mem_append.mp h3 with h4 | h4
          · rw [List.eq_of_mem_replicate h4]
            exact Or.inl (by decide)
          · exact Or.inl (h c h4)
    · rw [if_neg h1] at hc
      by_cases h2 : (digits.length : Int) ≤ p
      · rw [if_pos h2] at hc
        rcases List.mem_append.mp hc with h3 | h3
        · exact Or.inl (h c h3)
        · rw [List.eq_of_mem_replicate h3]
          exact Or.inl (by decide)
      · rw [if_neg h2] at hc
        rcases List.mem_append.mp hc with h3 | h3
        · exact Or.inl (h c (List.take_subset _ _ h3))
        · rcases List.mem_cons.mp h3 with h4 | h4
          · exact Or.inr h4
          · exact Or.inl (h c (List.drop_subset _ _ h4))

/-- Characters of a rendered number are digits, the point, or the sign. -/
theorem render_chars (n : NumNF) (h : ∀ c ∈ n.digits, c.isDigit = true) :
    ∀ c ∈ (NumNF.render n).data, c.isDigit = true ∨ c = '.' ∨ c = '-' := by
  intro c hc
  unfold NumNF.render at hc
  have hc2 : c ∈ (if n.sign ∧ n.digits ≠ [] then ['-'] else []) ++ renderMag n.digits n.pointPos := hc
  rcases List.mem_append.mp hc2 with h3 | h3
  · by_cases hs : n.sign ∧ n.digits ≠ []
    · rw [if_pos hs] at h3
      simp at h3
      exact Or.inr (Or.inr h3)
    · rw [if_neg hs] at h3
      simp at h3
  · rcases renderMag_chars n.digits n.pointPos h c h3 with h4 | h4
    · exact Or.inl h4
    · exact Or.inr (Or.inl h4)

/-- No rendered-number character is whitespace. -/
theorem allowed_not_ws (c : Char) (h : c.isDigit = true ∨ c = '.' ∨ c = '-') :
    c.isWhitespace = false := by
  rcases h with h | h | h
  · by_contra hw
    simp only [Bool.not_eq_false] at hw
    simp [Char.isWhitespace] at hw
    rcases hw with ((h2 | h2) | h2) | h2 <;> (subst h2; exact absurd h (by decide))
  · subst h; decide
  · subst h; decide

/-- Dropping leading whitespace does nothing when the head is not blank. -/
theorem dropWhile_ws_id (l : List Char) (h : ∀ c, l.head? = some c → c.isWhitespace = false) :
    l.dropWhile Char.isWhitespace = l := by
  cases l with
  | nil => rfl
  | cons c t => simp [List.dropWhile_cons, h c rfl]

/-- The head of a rendered magnitude is a digit. -/
theorem renderMag_head (digits : List Char) (p : Int) (h : ∀ c ∈ digits, c.isDigit = true) :
    ∀ c, (renderMag digits p).head? = some c → c.isDigit = true := by
  intro c hc
  unfold renderMag at hc
  by_cases h0 : digits = []
  · rw [if_pos h0] at hc
    simp at hc
    subst hc
    decide
  · rw [if_neg h0] at hc
    by_cases h1 : p ≤ 0
    · rw [if_pos h1] at hc
      simp at hc
      subst hc
      decide
    · rw [if_neg h1] at hc
      by_cases h2 : (digits.length : Int) ≤ p
      · rw [if_pos h2] at hc
        cases hd : digits with
        | nil => exact absurd hd h0
        | cons d ds =>
          rw [hd] at hc
          simp at hc
          subst hc
          exact h d (by simp [hd])
      · rw [if_neg h2] at hc
        have hp1 : p.toNat = (p.toNat - 1) + 1 := by omega
        cases hd : digits with
        | nil => exact absurd hd h0
        | cons d ds =>
          rw [hd, hp1, List.take_succ_cons] at hc
          simp at hc
          subst hc
          exact h d (by simp [hd])

/-- The magnitude renderer is never empty. -/
theorem renderMag_ne_nil (digits : List Char) (p : Int) : renderMag digits p ≠ [] := by
  unfold renderMag
  by_cases h0 : digits = []
  · simp [h0]
  · rw [if_neg h0]
    by_cases h1 : p ≤ 0
    · simp [h1]
    · rw [if_neg h1]
      by_cases h2 : (digits.length : Int) ≤ p
      · simp [h2, h0]
      · rw [if_neg h2]
        intro hc
        have := List.append_eq_nil.mp hc
        simp at this

/-- Evaluating the float-literal pipeline when the mantissa consumes the
whole input (no exponent part). -/
theorem parseFloatCore_eq (sign : Bool) (l ip1 rest fp1 : List Char)
    (htd : takeDigits l = (ip1, rest))
    (hfp : (if rest.head? = some '.' then takeDigits rest.tail else ([], rest)) = (fp1, []))
    (hne2 : ip1 ≠ [] ∨ fp1 ≠ []) :
    parseFloatCore sign l = mkNF sign ip1 fp1 0 := by
  simp only [parseFloatCore, htd, hfp]
  rw [if_neg (by rcases hne2 with h | h <;> simp [h])]
  rw [parseExpPart_no_e [] (by intro c hc; simp at hc)]
  simp

/-- Parsing a rendered magnitude (with the given sign) recovers the normal
form exactly. -/
theorem parseFloatCore_renderMag (sign : Bool) (digits : List Char) (p : Int)
    (hdig : ∀ c ∈ digits, c.isDigit = true) (hne : digits ≠ [])
    (hhead : digits.head? ≠ some '0') (hlast : digits.getLast? ≠ some '0') :
    parseFloatCore sign (renderMag digits p) = some ⟨sign, digits, p⟩ := by
  by_cases h1 : p ≤ 0
  · have hmag : renderMag digits p = '0' :: '.' :: (List.replicate (-p).toNat '0' ++ digits) := by
      unfold renderMag
      rw [if_neg hne, if_pos h1]
    have hall : ∀ c ∈ List.replicate (-p).toNat '0' ++ digits, c.isDigit = true := by
      intro c hc
      rcases List.mem_append.mp hc with h2 | h2
      · rw [List.eq_of_mem_replicate h2]; decide
      · exact hdig c h2
    have htd : takeDigits ('0' :: '.' :: (List.replicate (-p).toNat '0' ++ digits)) =
        (['0'], '.' :: (List.replicate (-p).toNat '0' ++ digits)) := by
      rw [show takeDigits ('0' :: '.' :: (List.replicate (-p).toNat '0' ++ digits)) =
          ('0' :: (takeDigits ('.' :: (List.replicate (-p).toNat '0' ++ digits))).1,
            (takeDigits ('.' :: (List.replicate (-p).toNat '0' ++ digits))).2) from by
        simp [takeDigits]]
      rw [takeDigits_cons_not '.' _ (by decide)]
    rw [hmag, parseFloatCore_eq sign _ ['0'] ('.' :: (List.replicate (-p).toNat '0' ++ digits))
        (List.replicate (-p).toNat '0' ++ digits) htd
        (by simp [takeDigits_all _ hall]) (Or.inl (by simp))]
    unfold mkNF
    have hsh : (['0'] ++ (List.replicate (-p).toNat '0' ++ digits)) =
        List.replicate ((-p).toNat + 1) '0' ++ digits := by
      simp [List.replicate_succ]
    rw [hsh, stripLeadZeros_replicate, stripLeadZeros_head_ne _ _ hhead]
    simp only [stripTrailZeros_of_last_ne _ hlast]
    rw [if_neg hne]
    have hp : ((List.length ['0'] : Int) + 0) - (((-p).toNat + 1 : Nat) : Int) = p := by
      simp only [List.length_singleton]
      omega
    rw [hp]
  · by_cases h2 : (digits.length : Int) ≤ p
    · have hmag : renderMag digits p = digits ++ List.replicate (p - digits.length).toNat '0' := by
        unfold renderMag
        rw [if_neg hne, if_neg h1, if_pos h2]
      have hall : ∀ c ∈ digits ++ List.replicate (p - digits.length).toNat '0',
          c.isDigit = true := by
        intro c hc
        rcases List.mem_append.mp hc with h3 | h3
        · exact hdig c h3
        · rw [List.eq_of_mem_replicate h3]; decide
      rw [hmag, parseFloatCore_eq sign _ (digits ++ List.replicate (p - digits.length).toNat '0')
          [] [] (by rw [takeDigits_all _ hall]) (by simp) (Or.inl (by simp [hne]))]
      unfold mkNF
      have hhead2 : (digits ++ List.replicate (p - digits.length).toNat '0').head? ≠ some '0' := by
        cases hd : digits with
        | nil => exact absurd hd hne
        | cons d ds => subst hd; simpa using hhead
      rw [List.append_nil, stripLeadZeros_head_ne _ _ hhead2]
      simp only [stripTrailZeros_append_zeros, stripTrailZeros_of_last_ne _ hlast]
      rw [if_neg hne]
      have hp : ((digits ++ List.replicate (p - digits.length).toNat '0').length : Int) + 0 = p := by
        simp only [List.length_append, List.length_replicate]
        omega
      rw [hp]
    · have hmag : renderMag digits p = digits.take p.toNat ++ '.' :: digits.drop p.toNat := by
        unfold renderMag
        rw [if_neg hne, if_neg h1, if_neg h2]
      have htake : ∀ c ∈ digits.take p.toNat, c.isDigit = true :=
        fun c hc => hdig c (List.take_subset _ _ hc)
      have hdrop : ∀ c ∈ digits.drop p.toNat, c.isDigit = true :=
        fun c hc => hdig c (List.drop_subset _ _ hc)
      have htne : digits.take p.toNat ≠ [] := by
        rw [ne_eq, List.take_eq_nil_iff]
        push_neg
        exact ⟨by omega, hne⟩
      rw [hmag, parseFloatCore_eq sign _ (digits.take p.toNat) ('.' :: digits.drop p.toNat)
          (digits.drop p.toNat)
          (by rw [takeDigits_append _ _ htake, takeDigits_cons_not '.' _ (by decide)]; simp)
          (by simp [takeDigits_all _ hdrop]) (Or.inl htne)]
      unfold mkNF
      rw [List.take_append_drop]
      have hlen : ((digits.take p.toNat).length : Int) + 0 = p := by
        simp only [List.length_take]
        omega
      rw [hlen, stripLeadZeros_head_ne _ _ hhead]
      simp only [stripTrailZeros_of_last_ne _ hlast]
      rw [if_neg hne]

/-- The leading-zero stripper never leaves a leading zero. -/
theorem stripLeadZeros_head_result (l : List Char) (p : Int) :
    ((stripLeadZeros l p).1).head? ≠ some '0' := by
  induction l generalizing p with
  | nil => simp [stripLeadZeros]
  | cons c t ih =>
    by_cases hc : c = '0'
    · subst hc
      simp only [stripLeadZeros, if_pos rfl]
      exact ih (p - 1)
    · simp [stripLeadZeros, hc]

/-- The trailing-zero stripper preserves the head when non-empty. -/
theorem stripTrailZeros_head (l : List Char) (h : stripTrailZeros l ≠ []) :
    (stripTrailZeros l).head? = l.head? := by
  cases l with
  | nil => rfl
  | cons c t =>
    have hstep : stripTrailZeros (c :: t) =
        (match stripTrailZeros t with
          | [] => if c = '0' then [] else [c]
          | r => c :: r) := rfl
    rw [hstep] at h ⊢
    cases hs : stripTrailZeros t with
    | nil =>
      rw [hs] at h
      by_cases hc : c = '0'
      · simp [hc] at h
      · simp [hc]
    | cons r rs => rfl

/-- The trailing-zero stripper never leaves a trailing zero. -/
theorem stripTrailZeros_last (l : List Char) : (stripTrailZeros l).getLast? ≠ some '0' := by
  induction l with
  | nil => simp [stripTrailZeros]
  | cons c t ih =>
    have hstep : stripTrailZeros (c :: t) =
        (match stripTrailZeros t with
          | [] => if c = '0' then [] else [c]
          | r => c :: r) := rfl
    rw [hstep]
    cases hs : stripTrailZeros t with
    | nil =>
      by_cases hc : c = '0'
      · simp [hc]
      · simp [hc]
    | cons r rs =>
      show ((c :: r :: rs) : List Char).getLast? ≠ some '0'
      rw [List.getLast?_cons_cons]
      rw [hs] at ih
      exact ih

/-- Stripped characters come from the input (trailing). -/
theorem stripTrailZeros_mem (c : Char) (l : List Char) (h : c ∈ stripTrailZeros l) : c ∈ l := by
  induction l with
  | nil => simp [stripTrailZeros] at h
  | cons a t ih =>
    have hstep : stripTrailZeros (a :: t) =
        (match stripTrailZeros t with
          | [] => if a = '0' then [] else [a]
          | r => a :: r) := rfl
    rw [hstep] at h
    cases hs : stripTrailZeros t with
    | nil =>
      rw [hs] at h
      by_cases ha : a = '0'
      · simp [ha] at h
      · simp [ha] at h
        simp [h]
    | cons r rs =>
      rw [hs] at h
      have h2 : c ∈ (a :: r :: rs : List Char) := h
      rcases List.mem_cons.mp h2 with h3 | h3
      · simp [h3]
      · exact List.mem_cons_of_mem a (ih (hs ▸ h3))

/-- Stripped characters come from the input (leading). -/
theorem stripLeadZeros_mem (c : Char) (l : List Char) (p : Int)
    (h : c ∈ (stripLeadZeros l p).1) : c ∈ l := by
  induction l generalizing p with
  | nil => simp [stripLeadZeros] at h
  | cons a t ih =>
    by_cases ha : a = '0'
    · subst ha
      simp only [stripLeadZeros, if_pos rfl] at h
      exact List.mem_cons_of_mem _ (ih (p - 1) h)
    · simp only [stripLeadZeros, if_neg ha] at h
      exact h

/-- Whatever `mkNF` produces is a canonical normal form. -/
theorem mkNF_normal (sign : Bool) (ipart fpart : List Char) (ev : Int) (n : NumNF)
    (hdig : ∀ c ∈ ipart ++ fpart, c.isDigit = true)
    (h : mkNF sign ipart fpart ev = some n) : n.Normal := by
  unfold mkNF at h
  by_cases hz : stripTrailZeros (stripLeadZeros (ipart ++ fpart)
      ((ipart.length : Int) + ev)).1 = []
  · rw [if_pos hz] at h
    have hn : n = ⟨false, [], 0⟩ := by
      injection h with h2
      exact h2.symm
    subst hn
    refine ⟨by simp, by simp, by simp, by simp⟩
  · rw [if_neg hz] at h
    have hn : n = ⟨sign, stripTrailZeros (stripLeadZeros (ipart ++ fpart)
        ((ipart.length : Int) + ev)).1,
        (stripLeadZeros (ipart ++ fpart) ((ipart.length : Int) + ev)).2⟩ := by
      injection h with h2
      exact h2.symm
    subst hn
    refine ⟨?_, by simp [hz], ?_, stripTrailZeros_last _⟩
    · intro c hc
      exact hdig c (stripLeadZeros_mem c _ _ (stripTrailZeros_mem c _ hc))
    · rw [stripTrailZeros_head _ hz]
      exact stripLeadZeros_head_result _ _

/-- Whatever `parseFloatLit` accepts is a canonical normal form. -/
theorem parseFloatLit_normal (s : String) (n : NumNF) (h : parseFloatLit s = some n) :
    n.Normal := by
  unfold parseFloatLit at h
  have hcore : ∀ (sg : Bool) (l : List Char), parseFloatCore sg l = some n → n.Normal := by
    intro sg l hc
    unfold parseFloatCore at hc
    by_cases hif : (takeDigits l).1 = [] ∧
        (if (takeDigits l).2.head? = some '.' then takeDigits (takeDigits l).2.tail
         else ([], (takeDigits l).2)).1 = []
    · rw [if_pos hif] at hc; exact absurd hc (by simp)
    · rw [if_neg hif] at hc
      cases he : parseExpPart (if (takeDigits l).2.head? = some '.' then
          takeDigits (takeDigits l).2.tail else ([], (takeDigits l).2)).2 with
      | none => rw [he] at hc; exact absurd hc (by simp)
      | some ev =>
        rw [he] at hc
        simp only [] at hc
        by_cases hw : ev.2.dropWhile Char.isWhitespace ≠ []
        · rw [if_pos hw] at hc; exact absurd hc (by simp)
        · rw [if_neg hw] at hc
          refine mkNF_normal sg _ _ ev.1 n ?_ hc
          intro c hcm
          rcases List.mem_append.mp hcm with h2 | h2
          · exact takeDigits_digits l c h2
          · by_cases hdot : (takeDigits l).2.head? = some '.'
            · rw [if_pos hdot] at h2
              exact takeDigits_digits _ c h2
            · rw [if_neg hdot] at h2
              simp at h2
  by_cases hm : (s.data.dropWhile Char.isWhitespace).head? = some '-'
  · rw [if_pos hm] at h
    exact hcore true _ h
  · rw [if_neg hm] at h
    exact hcore false _ h

/-- Parsing a rendered normal form recovers it exactly. -/
theorem parseFloatLit_render (n : NumNF) (hn : n.Normal) : parseFloatLit n.render = some n := by
  obtain ⟨sg, dg, pp⟩ := n
  obtain ⟨hdig, hzero, hhead, hlast⟩ := hn
  by_cases hne : dg = []
  · obtain ⟨hs, hp⟩ := hzero hne
    subst hne; subst hs; subst hp
    decide
  · unfold parseFloatLit
    have hmag := parseFloatCore_renderMag true dg pp hdig hne hhead hlast
    have hmagf := parseFloatCore_renderMag false dg pp hdig hne hhead hlast
    have hhd : ∀ c, (renderMag dg pp).head? = some c → c.isDigit = true :=
      renderMag_head dg pp hdig
    by_cases hs : sg
    · have hdata2 : (NumNF.render ⟨sg, dg, pp⟩).data = '-' :: renderMag dg pp := by
        show (if sg ∧ dg ≠ [] then ['-'] else []) ++ renderMag dg pp = _
        rw [if_pos ⟨hs, hne⟩]
        rfl
      rw [hdata2]
      have hdw : ('-' :: renderMag dg pp).dropWhile Char.isWhitespace =
          '-' :: renderMag dg pp := by
        apply dropWhile_ws_id
        intro c hc
        simp at hc
        subst hc
        decide
      rw [hdw]
      subst hs
      show parseFloatCore true (renderMag dg pp) = some ⟨true, dg, pp⟩
      exact hmag
    · have hsf : sg = false := by simpa using hs
      have hdata2 : (NumNF.render ⟨sg, dg, pp⟩).data = renderMag dg pp := by
        show (if sg ∧ dg ≠ [] then ['-'] else []) ++ renderMag dg pp = _
        rw [if_neg (by simp [hs])]
        rfl
      rw [hdata2]
      have hdw : (renderMag dg pp).dropWhile Char.isWhitespace = renderMag dg pp :=
        dropWhile_ws_id _ (fun c hc => allowed_not_ws c (Or.inl (hhd c hc)))
      rw [hdw]
      subst hsf
      show (if (renderMag dg pp).head? = some '-' then parseFloatCore true (renderMag dg pp).tail
            else parseFloatCore false (renderMag dg pp)) = some ⟨false, dg, pp⟩
      rw [if_neg (fun hcon => absurd (hhd '-' hcon) (by decide))]
      exact hmagf

/-- A string dynamic typing leaves alone is the input itself. -/
theorem dynamicType_vStr (t u : String) (h : dynamicType t = .vStr u) : u = t := by
  unfold dynamicType at h
  by_cases h1 : t = "true" ∨ t = "TRUE"
  · rw [if_pos h1] at h; exact absurd h (by simp)
  · rw [if_neg h1] at h
    by_cases h2 : t = "false" ∨ t = "FALSE"
    · rw [if_pos h2] at h; exact absurd h (by simp)
    · rw [if_neg h2] at h
      by_cases h3 : t = ""
      · rw [if_pos h3] at h; exact absurd h (by simp)
      · rw [if_neg h3] at h
        cases hp : parseFloatLit t with
        | some nf => rw [hp] at h; exact absurd h (by simp)
        | none =>
          rw [hp] at h
          simp at h
          exact h.symm

/-- A numeric dynamic typing comes from a successful float parse. -/
theorem dynamicType_vNum (t : String) (nf : NumNF) (h : dynamicType t = .vNum nf) :
    parseFloatLit t = some nf := by
  unfold dynamicType at h
  by_cases h1 : t = "true" ∨ t = "TRUE"
  · rw [if_pos h1] at h; exact absurd h (by simp)
  · rw [if_neg h1] at h
    by_cases h2 : t = "false" ∨ t = "FALSE"
    · rw [if_pos h2] at h; exact absurd h (by simp)
    · rw [if_neg h2] at h
      by_cases h3 : t = ""
      · rw [if_pos h3] at h; exact absurd h (by simp)
      · rw [if_neg h3] at h
        cases hp : parseFloatLit t with
        | some nf2 =>
          rw [hp] at h
          simp at h
          rw [h]
        | none => rw [hp] at h; exact absurd h (by simp)

/-- A boolean-true dynamic typing comes from a boolean literal. -/
theorem dynamicType_vBool_true (t : String) (h : dynamicType t = .vBool true) :
    t = "true" ∨ t = "TRUE" := by
  unfold dynamicType at h
  by_cases h1 : t = "true" ∨ t = "TRUE"
  · exact h1
  · rw [if_neg h1] at h
    by_cases h2 : t = "false" ∨ t = "FALSE"
    · rw [if_pos h2] at h; exact absurd h (by simp)
    · rw [if_neg h2] at h
      by_cases h3 : t = ""
      · rw [if_pos h3] at h; exact absurd h (by simp)
      · rw [if_neg h3] at h
        cases hp : parseFloatLit t with
        | some nf2 => rw [hp] at h; exact absurd h (by simp)
        | none => rw [hp] at h; exact absurd h (by simp)

/-- Dynamic typing of a rendered non-zero normal form gives it back. -/
theorem dynamicType_render (n : NumNF) (hn : n.Normal) :
    dynamicType n.render = .vNum n := by
  have hchars := render_chars n hn.1
  have hlit : ∀ (lit : String) (c : Char), c ∈ lit.data →
      ¬(c.isDigit = true ∨ c = '.' ∨ c = '-') → n.render ≠ lit := by
    intro lit c hmem hbad heq
    exact hbad (hchars c (heq ▸ hmem))
  have hnz : n.render ≠ "" := by
    intro he
    have hd := congrArg String.data he
    have hd2 : (if n.sign ∧ n.digits ≠ [] then ['-'] else []) ++
        renderMag n.digits n.pointPos = [] := hd
    rcases List.append_eq_nil.mp hd2 with ⟨_, hmag⟩
    exact renderMag_ne_nil _ _ hmag
  unfold dynamicType
  rw [if_neg (by
    push_neg
    exact ⟨hlit "true" 't' (by decide) (by decide), hlit "TRUE" 'T' (by decide) (by decide)⟩)]
  rw [if_neg (by
    push_neg
    exact ⟨hlit "false" 'f' (by decide) (by decide), hlit "FALSE" 'F' (by decide) (by decide)⟩)]
  rw [if_neg hnz, parseFloatLit_render n hn]

/-! # Trim lemmas (towards C4) -/

/-- Dropping while a predicate never holds does nothing. -/
theorem dropWhile_all_id (p : Char → Bool) (l : List Char) (h : ∀ c ∈ l, p c = false) :
    l.dropWhile p = l := by
  cases l with
  | nil => rfl
  | cons c t => simp [List.dropWhile_cons, h c (by simp)]

/-- A whitespace-free string is fixed by trimming. -/
theorem trimList_id_of_no_ws (l : List Char) (h : ∀ c ∈ l, c.isWhitespace = false) :
    trimList l = l := by
  unfold trimList
  rw [dropWhile_all_id _ _ h, dropWhile_all_id, List.reverse_reverse]
  intro c hc
  exact h c (List.mem_reverse.mp hc)

/-- A whitespace-free string is fixed by `jsTrim`. -/
theorem jsTrim_id_of_no_ws (s : String) (h : ∀ c ∈ s.data, c.isWhitespace = false) :
    jsTrim s = s := by
  unfold jsTrim
  rw [trimList_id_of_no_ws _ h, mkData]

/-- Dropping twice is dropping once. -/
theorem dropWhile_dropWhile (p : Char → Bool) (l : List Char) :
    (l.dropWhile p).dropWhile p = l.dropWhile p := by
  induction l with
  | nil => rfl
  | cons c t ih =>
    by_cases hc : p c
    · simp [List.dropWhile_cons, hc, ih]
    · simp [List.dropWhile_cons, hc]

/-- The head surviving a drop fails the predicate. -/
theorem head?_dropWhile_not (p : Char → Bool) (l : List Char) (a : Char)
    (h : (l.dropWhile p).head? = some a) : p a = false := by
  induction l with
  | nil => simp at h
  | cons c t ih =>
    by_cases hc : p c
    · rw [List.dropWhile_cons, if_pos hc] at h
      exact ih h
    · rw [List.dropWhile_cons, if_neg hc] at h
      simp at h
      subst h
      simpa using hc

/-- Dropping from the front preserves the last element when non-empty. -/
theorem getLast?_dropWhile_ne_nil (p : Char → Bool) (l : List Char)
    (h : l.dropWhile p ≠ []) : (l.dropWhile p).getLast? = l.getLast? := by
  induction l with
  | nil => rfl
  | cons c t ih =>
    by_cases hc : p c
    · rw [List.dropWhile_cons, if_pos hc] at h ⊢
      have ht : t ≠ [] := by
        intro he
        subst he
        simp at h
      rw [ih h]
      cases t with
      | nil => exact absurd rfl ht
      | cons d ds => rw [List.getLast?_cons_cons]
    · rw [List.dropWhile_cons, if_neg hc]

/-- The trim of a list whose head is not blank, taken from the right only,
is fixed by a further trim. -/
theorem trim_fix (A : List Char) (hA : ∀ a, A.head? = some a → a.isWhitespace = false) :
    trimList ((A.reverse.dropWhile Char.isWhitespace).reverse) =
      (A.reverse.dropWhile Char.isWhitespace).reverse := by
  have step1 : ((A.reverse.dropWhile Char.isWhitespace).reverse).dropWhile Char.isWhitespace =
      (A.reverse.dropWhile Char.isWhitespace).reverse := by
    cases hxr : (A.reverse.dropWhile Char.isWhitespace).reverse with
    | nil => rfl
    | cons b bs =>
      have hxne : A.reverse.dropWhile Char.isWhitespace ≠ [] := by
        intro h0
        rw [h0] at hxr
        simp at hxr
      have hb : (A.reverse.dropWhile Char.isWhitespace).getLast? = some b := by
        rw [← List.head?_reverse, hxr]
        rfl
      have h2 : (A.reverse.dropWhile Char.isWhitespace).getLast? = A.head? := by
        rw [getLast?_dropWhile_ne_nil _ _ hxne, List.getLast?_reverse]
      have hbA : A.head? = some b := by rw [← h2, hb]
      have hpb := hA b hbA
      rw [List.dropWhile_cons, if_neg (by simp [hpb])]
  unfold trimList
  rw [step1, List.reverse_reverse, dropWhile_dropWhile]

/-- Trimming is idempotent. -/
theorem trimList_idem (l : List Char) : trimList (trimList l) = trimList l := by
  show trimList (((l.dropWhile Char.isWhitespace).reverse.dropWhile Char.isWhitespace).reverse) = _
  exact trim_fix (l.dropWhile Char.isWhitespace)
    (fun a ha => head?_dropWhile_not Char.isWhitespace l a ha)

/-- `jsTrim` is idempotent. -/
theorem jsTrim_idem (s : String) : jsTrim (jsTrim s) = jsTrim s := by
  unfold jsTrim
  rw [show (String.mk (trimList s.data)).data = trimList s.data from rfl, trimList_idem]

/-- Canonicalized cells re-type to the same dynamic value. -/
theorem dynamicType_canon (t : String) (ht : jsTrim t = t)
    (htr : truthy (dynamicType t) = true) :
    dynamicType (canonOf t) = dynamicType t := by
  unfold canonOf
  cases hv : dynamicType t with
  | vStr u =>
    have hu := dynamicType_vStr t u hv
    subst hu
    rw [show jsToString (JsVal.vStr u) = u from rfl, ht]
    exact hv
  | vNum nf =>
    have hp := dynamicType_vNum t nf hv
    have hnorm := parseFloatLit_normal t nf hp
    rw [show jsToString (JsVal.vNum nf) = nf.render from rfl]
    rw [jsTrim_id_of_no_ws _ (fun c hc => allowed_not_ws c (render_chars nf hnorm.1 c hc))]
    rw [dynamicType_render nf hnorm]
  | vBool b =>
    cases b with
    | false => rw [hv] at htr; exact absurd htr (by decide)
    | true =>
      rw [show jsToString (JsVal.vBool true) = "true" from rfl]
      rw [show jsTrim "true" = "true" from by decide]
      decide
  | vNull => rw [hv] at htr; exact absurd htr (by decide)

/-- Canonicalization is idempotent on truthy trimmed cells. -/
theorem canonOf_idem (t : String) (ht : jsTrim t = t) (htr : truthy (dynamicType t) = true) :
    canonOf (canonOf t) = canonOf t := by
  unfold canonOf
  rw [show jsTrim (jsToString (dynamicType t)) = canonOf t from rfl,
      dynamicType_canon t ht htr]
  rfl

/-- A canonicalized cell is trimmed. -/
theorem canonOf_trimmed (t : String) : jsTrim (canonOf t) = canonOf t := jsTrim_idem _

/-! # Record lemmas (towards C4) -/

/-- Reading back the property just written. -/
theorem getField_setField_self (r : RecordJS) (k : String) (v : JsVal) :
    getField (setField r k v) k = some v := by
  unfold getField
  induction r with
  | nil => simp [setField]
  | cons a rest ih =>
    by_cases hk : a.1 = k
    · simp [setField, List.any_cons, hk, List.find?]
    · simp only [setField, List.any_cons] at *
      by_cases hr : rest.any (fun kv => kv.1 = k)
      · simp [hk, hr, List.find?_cons, setField] at ih ⊢
        simpa [hk, hr, setField] using ih
      · simp [hk, hr, List.find?_cons, setField] at ih ⊢
        simpa [hk, hr, setField] using ih

/-- Searching for another key skips a replaced property. -/
theorem find?_map_replace (r : List (String × JsVal)) (k k' : String) (v : JsVal)
    (h : k' ≠ k) :
    List.find? (fun kv => kv.1 = k') (r.map (fun kv => if kv.1 = k then (k, v) else kv)) =
      List.find? (fun kv => kv.1 = k') r := by
  induction r with
  | nil => rfl
  | cons a t ih =>
    by_cases ha : a.1 = k
    · simp only [List.map_cons, if_pos ha, List.find?_cons]
      have h1 : (decide ((k, v).1 = k')) = false := by simp [Ne.symm h]
      have h2 : (decide (a.1 = k')) = false := by simp [ha, Ne.symm h]
      rw [h1, h2]
      exact ih
    · simp only [List.map_cons, if_neg ha, List.find?_cons]
      cases hp : decide (a.1 = k') with
      | true => rfl
      | false => exact ih

/-- Writing one property leaves every other read unchanged. -/
theorem getField_setField_ne (r : RecordJS) (k : String) (v : JsVal) (k' : String)
    (h : k' ≠ k) : getField (setField r k v) k' = getField r k' := by
  unfold getField setField
  by_cases ha : List.any r (fun kv => kv.1 = k)
  · rw [if_pos ha, find?_map_replace r k k' v h]
  · rw [if_neg ha, List.find?_append]
    have : List.find? (fun kv => kv.1 = k') [(k, v)] = none := by
      simp [List.find?, Ne.symm h]
    rw [this]
    cases List.find? (fun kv => kv.1 = k') r <;> rfl

/-- Properties after a write come from before it or are the written pair. -/
theorem mem_setField (r : RecordJS) (k : String) (v : JsVal) (kv : String × JsVal)
    (h : kv ∈ setField r k v) : kv ∈ r ∨ kv = (k, v) := by
  unfold setField at h
  by_cases ha : List.any r (fun kv => kv.1 = k)
  · rw [if_pos ha] at h
    rw [List.mem_map] at h
    obtain ⟨x, hx, hmap⟩ := h
    by_cases hxk : x.1 = k
    · rw [if_pos hxk] at hmap
      exact Or.inr hmap.symm
    · rw [if_neg hxk] at hmap
      exact Or.inl (hmap ▸ hx)
  · rw [if_neg ha] at h
    rcases List.mem_append.mp h with h2 | h2
    · exact Or.inl h2
    · exact Or.inr (by simpa using h2)

/-- Every value in a row built by `mkRecord` with trimming is the dynamic
typing of a trimmed cell. -/
theorem foldl_setField_values (L : List (String × String)) (r0 : RecordJS)
    (h0 : ∀ kv ∈ r0, ∃ t, jsTrim t = t ∧ kv.2 = dynamicType t) :
    ∀ kv ∈ L.foldl (fun r kv2 => setField r kv2.1 (dynamicType (jsTrim kv2.2))) r0,
      ∃ t, jsTrim t = t ∧ kv.2 = dynamicType t := by
  induction L generalizing r0 with
  | nil => exact h0
  | cons a t ih =>
    intro kv hkv
    refine ih (setField r0 a.1 (dynamicType (jsTrim a.2))) ?_ kv hkv
    intro kv2 hkv2
    rcases mem_setField _ _ _ _ hkv2 with h2 | h2
    · exact h0 kv2 h2
    · exact ⟨jsTrim a.2, jsTrim_idem a.2, by rw [h2]⟩

/-- Values of a trimmed-parse row are dynamic typings of trimmed cells. -/
theorem mkRecord_values (fields cells : List String) (kv : String × JsVal)
    (h : kv ∈ mkRecord fields cells true) :
    ∃ t, jsTrim t = t ∧ kv.2 = dynamicType t :=
  foldl_setField_values (fields.zip cells) [] (by simp) kv h

/-- A truthy optional value is a present truthy value. -/
theorem truthyO_some (o : Option JsVal) (h : FileService.truthyO o = true) :
    ∃ v, o = some v ∧ truthy v = true := by
  cases o with
  | none => exact absurd h (by decide)
  | some v => exact ⟨v, rfl, h⟩

/-- Reading `uniqueId` after normalization. -/
theorem getField_normalizeRow_uniqueId (now : String) (r : RecordJS) :
    getField (FileService.normalizeRow now r) "uniqueId" =
      some (.vStr (jsTrim (FileService.jsToStringO (getField r "uniqueId")))) := by
  unfold FileService.normalizeRow
  rw [getField_setField_ne _ _ _ _ (by decide), getField_setField_ne _ _ _ _ (by decide),
      getField_setField_ne _ _ _ _ (by decide), getField_setField_self]

/-- Reading `placeName` after normalization. -/
theorem getField_normalizeRow_placeName (now : String) (r : RecordJS) :
    getField (FileService.normalizeRow now r) "placeName" =
      some (.vStr (jsTrim (FileService.jsToStringO (getField r "placeName")))) := by
  unfold FileService.normalizeRow
  rw [getField_setField_ne _ _ _ _ (by decide), getField_setField_ne _ _ _ _ (by decide),
      getField_setField_self]

/-- Reading `adminLevel` after normalization. -/
theorem getField_normalizeRow_adminLevel (now : String) (r : RecordJS) :
    getField (FileService.normalizeRow now r) "adminLevel" =
      some (.vStr (jsTrim (FileService.jsToStringO (getField r "adminLevel")))) := by
  unfold FileService.normalizeRow
  rw [getField_setField_ne _ _ _ _ (by decide), getField_setField_self]

/-- The one explicit row shape `generateCSV`'s default fields produce. -/
theorem mkRecord_default (c1 c2 c3 c4 c5 c6 : String) :
    mkRecord FileService.defaultFields [c1, c2, c3, c4, c5, c6] true =
      [("uniqueId", dynamicType (jsTrim c1)), ("placeName", dynamicType (jsTrim c2)),
       ("adminLevel", dynamicType (jsTrim c3)), ("dateMarked", dynamicType (jsTrim c4)),
       ("countryCodeISO", dynamicType (jsTrim c5)),
       ("regionCodeISO", dynamicType (jsTrim c6))] := by
  rfl

/-- CR before a non-LF character is rewritten to LF. -/
theorem normNewlines_cons_cr (d : Char) (t2 : List Char) (hd : d ≠ '\n') :
    normNewlines ('\x0d' :: d :: t2) = '\n' :: normNewlines (d :: t2) := by
  rw [normNewlines.eq_def]
  split
  all_goals first
    | (rename_i hnot heq; rw [List.cons.injEq] at heq; exact absurd heq.1.symm hnot)
    | simp_all

/-- The normalizer's output contains no carriage return. -/
theorem norm_no_cr (l : List Char) : '\x0d' ∉ normNewlines l := by
  generalize hn : l.length = n
  induction n using Nat.strong_induction_on generalizing l with
  | _ n ih =>
    cases l with
    | nil => simp [normNewlines]
    | cons c t =>
      by_cases hc : c = '\x0d'
      · subst hc
        cases t with
        | nil =>
          intro hmem
          rw [show normNewlines ['\x0d'] = ['\n'] from rfl] at hmem
          simp at hmem
        | cons d t2 =>
          by_cases hd : d = '\n'
          · subst hd
            rw [show normNewlines ('\x0d' :: '\n' :: t2) = '\n' :: normNewlines t2 from rfl]
            intro hmem
            rcases List.mem_cons.mp hmem with h | h
            · exact absurd h (by decide)
            · exact ih t2.length (by subst hn; simp; omega) t2 rfl h
          · rw [normNewlines_cons_cr d t2 hd]
            intro hmem
            rcases List.mem_cons.mp hmem with h | h
            · exact absurd h (by decide)
            · exact ih (d :: t2).length (by subst hn; simp) (d :: t2) rfl h
      · rw [normNewlines_cons_ne c t hc]
        intro hmem
        rcases List.mem_cons.mp hmem with h | h
        · exact hc h.symm
        · exact ih t.length (by subst hn; simp) t rfl h

/-- Every character of every scanned cell comes from the input, the pending
state, or is a quote. -/
theorem csvScan_chars (P : Char → Prop) (hq : P '"') (l : List Char) (st : ScanSt)
    (f : List Char) (row : List String) (acc : List (List String))
    (hl : ∀ c ∈ l, P c) (hf : ∀ c ∈ f, P c)
    (hrow : ∀ s ∈ row, ∀ c ∈ (s : String).data, P c)
    (hacc : ∀ r2 ∈ acc, ∀ s ∈ r2, ∀ c ∈ (s : String).data, P c) :
    ∀ r2 ∈ csvScan l st f row acc, ∀ s ∈ r2, ∀ c ∈ (s : String).data, P c := by
  induction l generalizing st f row acc with
  | nil =>
    intro r2 hr2 s hs c hc
    simp only [csvScan] at hr2
    rcases List.mem_append.mp hr2 with h2 | h2
    · exact hacc r2 h2 s hs c hc
    · simp only [List.mem_singleton] at h2
      subst h2
      rcases List.mem_append.mp hs with h3 | h3
      · exact hrow s h3 c hc
      · simp only [List.mem_singleton] at h3
        subst h3
        exact hf c hc
  | cons ch t ih =>
    have hlt : ∀ c ∈ t, P c := fun c hc => hl c (by simp [hc])
    have hch : P ch := hl ch (by simp)
    have hf1 : ∀ x : Char, ∀ c ∈ f ++ [x], P x → P c := by
      intro x c hc hx
      rcases List.mem_append.mp hc with h2 | h2
      · exact hf c h2
      · simp at h2; subst h2; exact hx
    have hrow1 : ∀ s ∈ row ++ [String.mk f], ∀ c ∈ (s : String).data, P c := by
      intro s hs c hc
      rcases List.mem_append.mp hs with h2 | h2
      · exact hrow s h2 c hc
      · simp at h2; subst h2; exact hf c hc
    have hacc1 : ∀ r2 ∈ acc ++ [row ++ [String.mk f]], ∀ s ∈ r2, ∀ c ∈ (s : String).data, P c := by
      intro r2 hr2 s hs c hc
      rcases List.mem_append.mp hr2 with h2 | h2
      · exact hacc r2 h2 s hs c hc
      · simp at h2; subst h2
        exact hrow1 s hs c hc
    cases st with
    | inq =>
      by_cases hcq : ch = '"'
      · rw [show csvScan (ch :: t) .inq f row acc = csvScan t .postq f row acc from by
          simp [csvScan, hcq]]
        exact ih .postq f row acc hlt hf hrow hacc
      · rw [show csvScan (ch :: t) .inq f row acc = csvScan t .inq (f ++ [ch]) row acc from by
          simp [csvScan, hcq]]
        exact ih .inq (f ++ [ch]) row acc hlt (fun c hc => hf1 ch c hc hch) hrow hacc
    | postq =>
      by_cases hcq : ch = '"'
      · rw [show csvScan (ch :: t) .postq f row acc = csvScan t .inq (f ++ ['"']) row acc from by
          simp [csvScan, hcq]]
        exact ih .inq (f ++ ['"']) row acc hlt (fun c hc => hf1 '"' c hc hq) hrow hacc
      · by_cases hcc : ch = ','
        · rw [show csvScan (ch :: t) .postq f row acc =
              csvScan t .out [] (row ++ [String.mk f]) acc from by
            simp [csvScan, hcq, hcc]]
          exact ih .out [] (row ++ [String.mk f]) acc hlt (by simp) hrow1 hacc
        · by_cases hcn : ch = '\n'
          · rw [show csvScan (ch :: t) .postq f row acc =
                csvScan t .out [] [] (acc ++ [row ++ [String.mk f]]) from by
              simp [csvScan, hcq, hcc, hcn]]
            exact ih .out [] [] (acc ++ [row ++ [String.mk f]]) hlt (by simp) (by simp) hacc1
          · rw [show csvScan (ch :: t) .postq f row acc =
                csvScan t .out (f ++ [ch]) row acc from by
              simp [csvScan, hcq, hcc, hcn]]
            exact ih .out (f ++ [ch]) row acc hlt (fun c hc => hf1 ch c hc hch) hrow hacc
    | out =>
      by_cases hop : ch = '"' ∧ f = []
      · rw [show csvScan (ch :: t) .out f row acc = csvScan t .inq f row acc from by
          simp [csvScan, hop]]
        exact ih .inq f row acc hlt hf hrow hacc
      · by_cases hcc : ch = ','
        · rw [show csvScan (ch :: t) .out f row acc =
              csvScan t .out [] (row ++ [String.mk f]) acc from by
            simp [csvScan, hop, hcc]]
          exact ih .out [] (row ++ [String.mk f]) acc hlt (by simp) hrow1 hacc
        · by_cases hcn : ch = '\n'
          · rw [show csvScan (ch :: t) .out f row acc =
                csvScan t .out [] [] (acc ++ [row ++ [String.mk f]]) from by
              simp [csvScan, hop, hcc, hcn]]
            exact ih .out [] [] (acc ++ [row ++ [String.mk f]]) hlt (by simp) (by simp) hacc1
          · rw [show csvScan (ch :: t) .out f row acc =
                csvScan t .out (f ++ [ch]) row acc from by
              simp [csvScan, hop, hcc, hcn]]
            exact ih .out (f ++ [ch]) row acc hlt (fun c hc => hf1 ch c hc hch) hrow hacc

/-- Cells produced by `splitRecords` contain no carriage return. -/
theorem splitRecords_no_cr (content : String) :
    ∀ r ∈ splitRecords content, ∀ s ∈ r, ∀ c ∈ (s : String).data, c ≠ '\x0d' := by
  unfold splitRecords
  exact csvScan_chars (fun c => c ≠ '\x0d') (by decide) _ .out [] [] []
    (fun c hc hd => norm_no_cr content.data (hd ▸ hc)) (by simp) (by simp) (by simp)

/-! # Per-field lemmas for the round trip -/

/-- A successful property read is a membership. -/
theorem getField_mem (r : RecordJS) (k : String) (v : JsVal) (h : getField r k = some v) :
    (k, v) ∈ r := by
  unfold getField at h
  cases hf : List.find? (fun kv => kv.1 = k) r with
  | none => rw [hf] at h; exact absurd h (by simp)
  | some kv =>
    rw [hf] at h
    simp at h
    have hk := List.find?_some hf
    simp at hk
    have hm := List.mem_of_find?_eq_some hf
    have : kv = (k, v) := by
      cases kv
      simp_all
    exact this ▸ hm

/-- Reading `dateMarked` after normalization. -/
theorem getField_normalizeRow_dateMarked (now : String) (r : RecordJS) :
    getField (FileService.normalizeRow now r) "dateMarked" =
      some (match getField r "dateMarked" with
            | some v => if truthy v then v else .vStr now
            | none => .vStr now) := by
  unfold FileService.normalizeRow
  rw [getField_setField_self]

/-- Reading any other property after normalization. -/
theorem getField_normalizeRow_other (now : String) (r : RecordJS) (f : String)
    (h1 : f ≠ "uniqueId") (h2 : f ≠ "placeName") (h3 : f ≠ "adminLevel")
    (h4 : f ≠ "dateMarked") :
    getField (FileService.normalizeRow now r) f = getField r f := by
  unfold FileService.normalizeRow
  rw [getField_setField_ne _ _ _ _ h4, getField_setField_ne _ _ _ _ h3,
      getField_setField_ne _ _ _ _ h2, getField_setField_ne _ _ _ _ h1]

/-- Dropped characters come from the input. -/
theorem dropWhile_mem (p : Char → Bool) (l : List Char) (c : Char)
    (h : c ∈ l.dropWhile p) : c ∈ l := by
  induction l with
  | nil => simp at h
  | cons a t ih =>
    rw [List.dropWhile_cons] at h
    by_cases ha : p a
    · rw [if_pos ha] at h
      exact List.mem_cons_of_mem a (ih h)
    · rw [if_neg ha] at h
      exact h

/-- Trimmed characters come from the input. -/
theorem trimList_mem (l : List Char) (c : Char) (h : c ∈ trimList l) : c ∈ l := by
  unfold trimList at h
  rw [List.mem_reverse] at h
  have h2 := dropWhile_mem _ _ _ h
  rw [List.mem_reverse] at h2
  exact dropWhile_mem _ _ _ h2

/-- Trimmed string characters come from the input. -/
theorem jsTrim_mem (s : String) (c : Char) (h : c ∈ (jsTrim s).data) : c ∈ s.data :=
  trimList_mem _ _ h

/-- A non-whitespace character is not the carriage return. -/
theorem not_cr_of_not_ws (c : Char) (h : c.isWhitespace = false) : c ≠ '\x0d' := by
  intro hc
  subst hc
  exact absurd h (by decide)

/-- Stringifying a dynamically typed cell only produces input characters or
safe (non-CR) characters. -/
theorem jsToString_dynamicType_chars (t : String) :
    ∀ c ∈ (jsToString (dynamicType t)).data, c ∈ t.data ∨ c ≠ '\x0d' := by
  intro c hc
  cases hv : dynamicType t with
  | vStr u =>
    have hu := dynamicType_vStr t u hv
    rw [hv] at hc
    subst hu
    exact Or.inl hc
  | vNum nf =>
    have hp := dynamicType_vNum t nf hv
    have hnorm := parseFloatLit_normal t nf hp
    rw [hv] at hc
    refine Or.inr ?_
    exact not_cr_of_not_ws c (allowed_not_ws c (render_chars nf hnorm.1 c hc))
  | vBool b =>
    rw [hv] at hc
    cases b with
    | true =>
      refine Or.inr ?_
      have : ∀ x ∈ ("true" : String).data, x ≠ '\x0d' := by decide
      exact this c hc
    | false =>
      refine Or.inr ?_
      have : ∀ x ∈ ("false" : String).data, x ≠ '\x0d' := by decide
      exact this c hc
  | vNull =>
    rw [hv] at hc
    refine Or.inr ?_
    have : ∀ x ∈ ("null" : String).data, x ≠ '\x0d' := by decide
    exact this c hc

/-- The cell text of a string-valued property. -/
theorem cell_of_vStr (r : RecordJS) (f s : String) (h : getField r f = some (.vStr s)) :
    FileService.cellToString (FileService.cleanField r f) = s := by
  unfold FileService.cleanField
  rw [h]
  show FileService.cellToString
    (if JsVal.vStr s = JsVal.vNull then JsVal.vStr "" else JsVal.vStr s) = s
  rw [if_neg (by simp)]
  rfl

/-- Values (with CR-free provenance) of a trimmed-parse row. -/
theorem foldl_setField_values_cr (L : List (String × String)) (r0 : RecordJS)
    (hcr : ∀ a ∈ L, '\x0d' ∉ (a.2 : String).data)
    (h0 : ∀ kv ∈ r0, ∃ t, jsTrim t = t ∧ '\x0d' ∉ (t : String).data ∧ kv.2 = dynamicType t) :
    ∀ kv ∈ L.foldl (fun r kv2 => setField r kv2.1 (dynamicType (jsTrim kv2.2))) r0,
      ∃ t, jsTrim t = t ∧ '\x0d' ∉ (t : String).data ∧ kv.2 = dynamicType t := by
  induction L generalizing r0 with
  | nil => exact h0
  | cons a t ih =>
    intro kv hkv
    refine ih (setField r0 a.1 (dynamicType (jsTrim a.2)))
      (fun x hx => hcr x (List.mem_cons_of_mem a hx)) ?_ kv hkv
    intro kv2 hkv2
    rcases mem_setField _ _ _ _ hkv2 with h2 | h2
    · exact h0 kv2 h2
    · refine ⟨jsTrim a.2, jsTrim_idem a.2, ?_, by rw [h2]⟩
      intro hmem
      exact hcr a (by simp) (jsTrim_mem _ _ hmem)

/-- Values of a trimmed-parse row over CR-free cells. -/
theorem mkRecord_values_cr (fields cells : List String)
    (hcr : ∀ s ∈ cells, '\x0d' ∉ (s : String).data) (kv : String × JsVal)
    (h : kv ∈ mkRecord fields cells true) :
    ∃ t, jsTrim t = t ∧ '\x0d' ∉ (t : String).data ∧ kv.2 = dynamicType t := by
  refine foldl_setField_values_cr (fields.zip cells) [] ?_ (by simp) kv h
  intro a ha
  exact hcr a.2 (List.of_mem_zip ha).2

/-- One required field's value survives the export/import cycle: exporting
its trimmed string form and re-typing it dynamically is truthy again and
re-canonicalizes to the same string. -/
theorem field_roundtrip (v : JsVal) (t : String) (ht : jsTrim t = t)
    (hv : v = dynamicType t) (htr : truthy v = true) :
    truthy (dynamicType (jsTrim (jsTrim (jsToString v)))) = true ∧
    jsTrim (jsToString (dynamicType (jsTrim (jsTrim (jsToString v))))) =
      jsTrim (jsToString v) := by
  subst hv
  have h1 : jsTrim (jsToString (dynamicType t)) = canonOf t := rfl
  rw [h1, canonOf_trimmed t]
  constructor
  · rw [dynamicType_canon t ht htr]
    exact htr
  · rw [show jsTrim (jsToString (dynamicType (canonOf t))) = canonOf (canonOf t) from rfl]
    exact canonOf_idem t ht htr

/-- The six cells `generateCSV` emits for one record, spelled out. -/
theorem cellsOf_explicit (r : RecordJS) :
    cellsOf r = [FileService.cellToString (FileService.cleanField r "uniqueId"),
      FileService.cellToString (FileService.cleanField r "placeName"),
      FileService.cellToString (FileService.cleanField r "adminLevel"),
      FileService.cellToString (FileService.cleanField r "dateMarked"),
      FileService.cellToString (FileService.cleanField r "countryCodeISO"),
      FileService.cellToString (FileService.cleanField r "regionCodeISO")] := rfl

/-- Reading `uniqueId` on an explicit default-shaped row. -/
theorem getField_default_u (v1 v2 v3 v4 v5 v6 : JsVal) :
    getField [("uniqueId", v1), ("placeName", v2), ("adminLevel", v3), ("dateMarked", v4),
      ("countryCodeISO", v5), ("regionCodeISO", v6)] "uniqueId" = some v1 := rfl

/-- Reading `placeName` on an explicit default-shaped row. -/
theorem getField_default_p (v1 v2 v3 v4 v5 v6 : JsVal) :
    getField [("uniqueId", v1), ("placeName", v2), ("adminLevel", v3), ("dateMarked", v4),
      ("countryCodeISO", v5), ("regionCodeISO", v6)] "placeName" = some v2 := rfl

/-- Reading `adminLevel` on an explicit default-shaped row. -/
theorem getField_default_a (v1 v2 v3 v4 v5 v6 : JsVal) :
    getField [("uniqueId", v1), ("placeName", v2), ("adminLevel", v3), ("dateMarked", v4),
      ("countryCodeISO", v5), ("regionCodeISO", v6)] "adminLevel" = some v3 := rfl

/-- A valid parsed row, once normalized, exported through the default fields
and re-parsed, is valid again and re-normalizes to the same required-field
triple. -/
theorem row_roundtrip (now now2 : String) (r0 : RecordJS)
    (hvalid : FileService.rowValid r0 = true)
    (hvals : ∀ kv ∈ r0, ∃ t, jsTrim t = t ∧ kv.2 = dynamicType t) :
    FileService.rowValid (mkRecord FileService.defaultFields
      (cellsOf (FileService.normalizeRow now r0)) true) = true ∧
    reqTriple (FileService.normalizeRow now2 (mkRecord FileService.defaultFields
      (cellsOf (FileService.normalizeRow now r0)) true)) =
      reqTriple (FileService.normalizeRow now r0) := by
  rw [FileService.rowValid, Bool.and_eq_true, Bool.and_eq_true] at hvalid
  obtain ⟨⟨hu, hp⟩, ha⟩ := hvalid
  obtain ⟨vu, hvu, htu⟩ := truthyO_some _ hu
  obtain ⟨vp, hvp, htp⟩ := truthyO_some _ hp
  obtain ⟨va, hva, hta⟩ := truthyO_some _ ha
  obtain ⟨tu, htu2, hvtu⟩ := hvals ("uniqueId", vu) (getField_mem _ _ _ hvu)
  obtain ⟨tp, htp2, hvtp⟩ := hvals ("placeName", vp) (getField_mem _ _ _ hvp)
  obtain ⟨ta, hta2, hvta⟩ := hvals ("adminLevel", va) (getField_mem _ _ _ hva)
  have hru : getField (FileService.normalizeRow now r0) "uniqueId" =
      some (.vStr (jsTrim (jsToString vu))) := by
    rw [getField_normalizeRow_uniqueId, hvu]
    rfl
  have hrp : getField (FileService.normalizeRow now r0) "placeName" =
      some (.vStr (jsTrim (jsToString vp))) := by
    rw [getField_normalizeRow_placeName, hvp]
    rfl
  have hra : getField (FileService.normalizeRow now r0) "adminLevel" =
      some (.vStr (jsTrim (jsToString va))) := by
    rw [getField_normalizeRow_adminLevel, hva]
    rfl
  have hcu := cell_of_vStr _ _ _ hru
  have hcp := cell_of_vStr _ _ _ hrp
  have hca := cell_of_vStr _ _ _ hra
  have hcells : cellsOf (FileService.normalizeRow now r0) =
      [jsTrim (jsToString vu), jsTrim (jsToString vp), jsTrim (jsToString va),
       FileService.cellToString (FileService.cleanField
         (FileService.normalizeRow now r0) "dateMarked"),
       FileService.cellToString (FileService.cleanField
         (FileService.normalizeRow now r0) "countryCodeISO"),
       FileService.cellToString (FileService.cleanField
         (FileService.normalizeRow now r0) "regionCodeISO")] := by
    rw [cellsOf_explicit, hcu, hcp, hca]
  rw [hcells, mkRecord_default]
  obtain ⟨hftu1, hftu2⟩ := field_roundtrip vu tu htu2 hvtu htu
  obtain ⟨hftp1, hftp2⟩ := field_roundtrip vp tp htp2 hvtp htp
  obtain ⟨hfta1, hfta2⟩ := field_roundtrip va ta hta2 hvta hta
  constructor
  · unfold FileService.rowValid
    rw [getField_default_u, getField_default_p, getField_default_a]
    simp only [FileService.truthyO]
    rw [hftu1, hftp1, hfta1]
    rfl
  · unfold reqTriple
    rw [hru, hrp, hra,
        getField_normalizeRow_uniqueId, getField_normalizeRow_placeName,
        getField_normalizeRow_adminLevel,
        getField_default_u, getField_default_p, getField_default_a]
    simp only [FileService.jsToStringO]
    rw [hftu2, hftp2, hfta2]

/-- The trimmed string form of a dynamically typed CR-free cell has no CR. -/
theorem jsTrim_jsToString_no_cr (v : JsVal) (t : String) (hv : v = dynamicType t)
    (ht : '\x0d' ∉ (t : String).data) : '\x0d' ∉ (jsTrim (jsToString v)).data := by
  intro hmem
  have hc := jsTrim_mem _ _ hmem
  subst hv
  rcases jsToString_dynamicType_chars t '\x0d' hc with h | h
  · exact ht h
  · exact h rfl

/-- Cell stringification only shrinks `String(...)`. -/
theorem cellToString_chars (w : JsVal) :
    ∀ c ∈ (FileService.cellToString w).data, c ∈ (jsToString w).data := by
  intro c hc
  cases w with
  | vNull => exact absurd hc (by simp [FileService.cellToString])
  | vStr s => exact hc
  | vNum n => exact hc
  | vBool b => exact hc

/-- The trimmed string form of a possibly-absent parsed property has no CR. -/
theorem trimmed_str_no_cr (r0 : RecordJS) (f : String)
    (hvals : ∀ kv ∈ r0, ∃ t, jsTrim t = t ∧ '\x0d' ∉ (t : String).data ∧
      kv.2 = dynamicType t) :
    '\x0d' ∉ (jsTrim (FileService.jsToStringO (getField r0 f))).data := by
  cases ho : getField r0 f with
  | none =>
    rw [show FileService.jsToStringO none = "undefined" from rfl]
    intro hmem
    exact absurd (jsTrim_mem _ _ hmem) (by decide)
  | some v =>
    obtain ⟨t, _, htc, hvt⟩ := hvals (f, v) (getField_mem _ _ _ ho)
    rw [show FileService.jsToStringO (some v) = jsToString v from rfl]
    exact jsTrim_jsToString_no_cr v t hvt htc

/-- A `generateCSV` cell is CR-free whenever the underlying property value,
if present, dynamically types a CR-free cell or is a CR-free string. -/
theorem cell_no_cr (r : RecordJS) (f : String)
    (h : ∀ v, getField r f = some v →
      (∃ t, '\x0d' ∉ (t : String).data ∧ v = dynamicType t) ∨
      (∃ s2, '\x0d' ∉ (s2 : String).data ∧ v = JsVal.vStr s2)) :
    '\x0d' ∉ (FileService.cellToString (FileService.cleanField r f)).data := by
  unfold FileService.cleanField
  cases ho : getField r f with
  | none => exact by decide
  | some v =>
    show '\x0d' ∉ (FileService.cellToString
      (if v = JsVal.vNull then JsVal.vStr "" else v)).data
    by_cases hn : v = JsVal.vNull
    · rw [if_pos hn]
      exact by decide
    · rw [if_neg hn]
      rcases h v ho with ⟨t, htc, hvt⟩ | ⟨s2, hsc, hvs⟩
      · intro hmem
        have h2 := cellToString_chars v '\x0d' hmem
        rw [hvt] at h2
        rcases jsToString_dynamicType_chars t '\x0d' h2 with h3 | h3
        · exact htc h3
        · exact h3 rfl
      · subst hvs
        intro hmem
        exact hsc (cellToString_chars _ '\x0d' hmem)

/-- Every cell exported for a normalized parsed row is CR-free (given a
CR-free clock string). -/
theorem cellsOf_no_cr (now : String) (r0 : RecordJS)
    (hnow : '\x0d' ∉ (now : String).data)
    (hvals : ∀ kv ∈ r0, ∃ t, jsTrim t = t ∧ '\x0d' ∉ (t : String).data ∧
      kv.2 = dynamicType t) :
    ∀ s ∈ cellsOf (FileService.normalizeRow now r0), '\x0d' ∉ (s : String).data := by
  intro s hs
  rw [cellsOf_explicit] at hs
  simp only [List.mem_cons, List.not_mem_nil, or_false] at hs
  rcases hs with h | h | h | h | h | h
  · subst h
    refine cell_no_cr _ _ ?_
    intro v hv
    rw [getField_normalizeRow_uniqueId] at hv
    injection hv with hv
    exact Or.inr ⟨_, trimmed_str_no_cr r0 "uniqueId" hvals, hv.symm⟩
  · subst h
    refine cell_no_cr _ _ ?_
    intro v hv
    rw [getField_normalizeRow_placeName] at hv
    injection hv with hv
    exact Or.inr ⟨_, trimmed_str_no_cr r0 "placeName" hvals, hv.symm⟩
  · subst h
    refine cell_no_cr _ _ ?_
    intro v hv
    rw [getField_normalizeRow_adminLevel] at hv
    injection hv with hv
    exact Or.inr ⟨_, trimmed_str_no_cr r0 "adminLevel" hvals, hv.symm⟩
  · subst h
    refine cell_no_cr _ _ ?_
    intro v hv
    rw [getField_normalizeRow_dateMarked] at hv
    injection hv with hv
    cases ho : getField r0 "dateMarked" with
    | none =>
      rw [ho] at hv
      exact Or.inr ⟨now, hnow, hv.symm⟩
    | some v2 =>
      rw [ho] at hv
      have hv2 : (if truthy v2 = true then v2 else JsVal.vStr now) = v := hv
      by_cases ht2 : truthy v2 = true
      · rw [if_pos ht2] at hv2
        obtain ⟨t, _, htc, hvt⟩ := hvals ("dateMarked", v2) (getField_mem _ _ _ ho)
        exact Or.inl ⟨t, htc, hv2 ▸ hvt⟩
      · rw [if_neg ht2] at hv2
        exact Or.inr ⟨now, hnow, hv2.symm⟩
  · subst h
    refine cell_no_cr _ _ ?_
    intro v hv
    rw [getField_normalizeRow_other now r0 "countryCodeISO" (by decide) (by decide)
        (by decide) (by decide)] at hv
    obtain ⟨t, _, htc, hvt⟩ := hvals ("countryCodeISO", v) (getField_mem _ _ _ hv)
    exact Or.inl ⟨t, htc, hvt⟩
  · subst h
    refine cell_no_cr _ _ ?_
    intro v hv
    rw [getField_normalizeRow_other now r0 "regionCodeISO" (by decide) (by decide)
        (by decide) (by decide)] at hv
    obtain ⟨t, _, htc, hvt⟩ := hvals ("regionCodeISO", v) (getField_mem _ _ _ hv)
    exact Or.inl ⟨t, htc, hvt⟩

/-- `generateCSV` with the default fields renders each record's `cellsOf`. -/
theorem generateCSV_eq (rows : List RecordJS) (h : rows ≠ []) :
    FileService.generateCSV (some rows) none =
      .ok (papaUnparse (FileService.defaultFields :: rows.map cellsOf)) := by
  unfold FileService.generateCSV
  simp only [h, if_neg h]
  simp only [List.map_map, Option.getD_none]
  refine congrArg Except.ok (congrArg papaUnparse (congrArg (List.cons _) ?_))
  refine List.map_congr_left ?_
  intro a _
  simp [Function.comp, List.map_map, cellsOf]

/-- `papaParse` through an explicit record split. -/
theorem papaParse_of_filter (doTrim : Bool) (content : String) (hdr : List String)
    (body : List (List String))
    (h : (splitRecords content).filter (fun r => r ≠ [""]) = hdr :: body) :
    papaParse doTrim content =
      ⟨if doTrim then hdr.map jsTrim else hdr,
       body.map (fun r => mkRecord (if doTrim then hdr.map jsTrim else hdr) r doTrim),
       (body.zip (List.range body.length)).filterMap
         (fun p => if p.1.length ≠ (if doTrim then hdr.map jsTrim else hdr).length
                   then some p.2 else none)⟩ := by
  unfold papaParse
  rw [h]

/-- Parsing back the generated default-field CSV text yields one row object
per record, rebuilt from its exported cells. -/
theorem papaParse_generated (rows : List RecordJS)
    (hcr : ∀ r ∈ rows, ∀ s ∈ cellsOf r, '\x0d' ∉ (s : String).data) :
    papaParse true (papaUnparse (FileService.defaultFields :: rows.map cellsOf)) =
      ⟨FileService.defaultFields,
       rows.map (fun r => mkRecord FileService.defaultFields (cellsOf r) true), []⟩ := by
  have hlen : ∀ r ∈ rows, (cellsOf r).length = 6 := by
    intro r _
    simp [cellsOf, FileService.defaultFields]
  have hsplit : splitRecords (papaUnparse (FileService.defaultFields :: rows.map cellsOf)) =
      FileService.defaultFields :: rows.map cellsOf := by
    refine splitRecords_papaUnparse _ (by simp) ?_ ?_
    · intro r hr
      rcases List.mem_cons.mp hr with h1 | h1
      · subst h1; decide
      · rw [List.mem_map] at h1
        obtain ⟨a, ha, h2⟩ := h1
        subst h2
        intro hnil
        have h3 := hlen a ha
        rw [hnil] at h3
        exact absurd h3 (by decide)
    · intro r hr f hf
      rcases List.mem_cons.mp hr with h1 | h1
      · subst h1
        exact (show ∀ g ∈ FileService.defaultFields, '\x0d' ∉ (g : String).data
          from by decide) f hf
      · rw [List.mem_map] at h1
        obtain ⟨a, ha, h2⟩ := h1
        subst h2
        exact hcr a ha f hf
  have hfilter : (splitRecords (papaUnparse (FileService.defaultFields ::
        rows.map cellsOf))).filter (fun r => r ≠ [""]) =
      FileService.defaultFields :: rows.map cellsOf := by
    rw [hsplit]
    refine List.filter_eq_self.mpr ?_
    intro a ha
    rcases List.mem_cons.mp ha with h1 | h1
    · subst h1; decide
    · rw [List.mem_map] at h1
      obtain ⟨b, hb, h2⟩ := h1
      subst h2
      refine decide_eq_true ?_
      intro hnil
      have h3 := hlen b hb
      rw [hnil] at h3
      exact absurd h3 (by decide)
  rw [papaParse_of_filter true _ _ _ hfilter]
  have hift : (if true = true then FileService.defaultFields.map jsTrim
      else FileService.defaultFields) = FileService.defaultFields.map jsTrim := rfl
  rw [hift]
  rw [show FileService.defaultFields.map jsTrim = FileService.defaultFields from by decide]
  refine congrArg₂ (PapaOut.mk FileService.defaultFields) ?_ ?_
  · rw [List.map_map]
    rfl
  · refine List.filterMap_eq_nil_iff.mpr ?_
    intro p hp
    have h1 : p.1 ∈ rows.map cellsOf := (List.of_mem_zip hp).1
    rw [List.mem_map] at h1
    obtain ⟨b, hb, h2⟩ := h1
    have h3 : p.1.length = 6 := by rw [← h2]; exact hlen b hb
    have h4 : ¬(p.1.length ≠ FileService.defaultFields.length) := by
      rw [h3]; decide
    rw [if_neg h4]

/-- A character the drop predicate rejects survives `dropWhile`. -/
theorem mem_dropWhile_of_not (p : Char → Bool) (l : List Char) (c : Char)
    (hc : c ∈ l) (hp : p c = false) : c ∈ l.dropWhile p := by
  induction l with
  | nil => simp at hc
  | cons a t ih =>
    rw [List.dropWhile_cons]
    by_cases ha : p a
    · rw [if_pos ha]
      rcases List.mem_cons.mp hc with h1 | h1
      · subst h1
        rw [ha] at hp
        exact absurd hp (by simp)
      · exact ih h1
    · rw [if_neg ha]
      exact hc

/-- A string holding a non-whitespace character does not trim to empty. -/
theorem jsTrim_ne_empty (s : String) (c : Char) (hc : c ∈ (s : String).data)
    (hw : c.isWhitespace = false) : jsTrim s ≠ "" := by
  intro h
  have hdata : trimList s.data = [] := congrArg String.data h
  have h1 : c ∈ (s.data.dropWhile Char.isWhitespace) := mem_dropWhile_of_not _ _ _ hc hw
  have h2 : c ∈ ((s.data.dropWhile Char.isWhitespace).reverse.dropWhile Char.isWhitespace) :=
    mem_dropWhile_of_not _ _ _ (List.mem_reverse.mpr h1) hw
  have h3 : c ∈ trimList s.data := List.mem_reverse.mpr h2
  rw [hdata] at h3
  exact absurd h3 (by simp)

/-- The generated default-header CSV text begins with a quote. -/
theorem papaUnparse_default_data (rs : List (List String)) :
    ∃ l, (papaUnparse (FileService.defaultFields :: rs)).data = '"' :: l := by
  show ∃ l, joinRows ((FileService.defaultFields :: rs).map
      (fun r => joinFields (r.map renderField))) = '"' :: l
  rw [List.map_cons]
  cases rs.map (fun r => joinFields (r.map renderField)) with
  | nil => exact ⟨_, rfl⟩
  | cons x xs => exact ⟨_, rfl⟩

/-- `papaParse` on input whose record split is all-empty. -/
theorem papaParse_of_nil (doTrim : Bool) (content : String)
    (h : (splitRecords content).filter (fun r => r ≠ [""]) = []) :
    papaParse doTrim content = ⟨[], [], []⟩ := by
  unfold papaParse
  rw [h]

/-- Every value parsed by the trimming `papaParse` dynamically types a
trimmed, CR-free cell. -/
theorem papaParse_true_values (content : String) :
    ∀ r ∈ (papaParse true content).data, ∀ kv ∈ r,
      ∃ t, jsTrim t = t ∧ '\x0d' ∉ (t : String).data ∧ kv.2 = dynamicType t := by
  intro r hr kv hkv
  cases hm : (splitRecords content).filter (fun r2 => r2 ≠ [""]) with
  | nil =>
    rw [papaParse_of_nil true content hm] at hr
    exact absurd hr (by simp)
  | cons hdr body =>
    rw [papaParse_of_filter true content hdr body hm] at hr
    have hr2 : r ∈ body.map (fun r2 =>
        mkRecord (if true = true then hdr.map jsTrim else hdr) r2 true) := hr
    rw [List.mem_map] at hr2
    obtain ⟨cells, hcells, hrc⟩ := hr2
    subst hrc
    refine mkRecord_values_cr _ cells ?_ kv hkv
    intro s hs hmem
    have hmem2 : cells ∈ (splitRecords content).filter (fun r2 => r2 ≠ [""]) := by
      rw [hm]
      exact List.mem_cons_of_mem hdr hcells
    exact splitRecords_no_cr content cells (List.mem_of_mem_filter hmem2) s hs '\x0d' hmem rfl

/-- Inversion of a successful `parseCSV`. -/
theorem parseCSV_ok (content now : String) (res : FileService.ParseOut)
    (h : FileService.parseCSV content now = .ok res) :
    res.data = (((papaParse true (FileService.stripBOM content)).data.filter
        FileService.rowValid).map (FileService.normalizeRow now)) ∧
    res.data ≠ [] := by
  unfold FileService.parseCSV at h
  by_cases h1 : jsTrim content = ""
  · rw [if_pos h1] at h
    exact absurd h (by simp)
  · rw [if_neg h1] at h
    have h2 : (if (FileService.requiredFields.filter (fun f =>
          !((papaParse true (FileService.stripBOM content)).fields.contains f))) ≠ [] then
          (Except.error ("CSVファイルに必須フィールドがありません: " ++ String.intercalate ", "
            (FileService.requiredFields.filter (fun f =>
              !((papaParse true (FileService.stripBOM content)).fields.contains f)))) :
            Except String FileService.ParseOut)
        else if (((papaParse true (FileService.stripBOM content)).data.filter
              FileService.rowValid).map (FileService.normalizeRow now)) = [] then
          .error "有効なデータが見つかりませんでした"
        else .ok ⟨(((papaParse true (FileService.stripBOM content)).data.filter
              FileService.rowValid).map (FileService.normalizeRow now)),
            (papaParse true (FileService.stripBOM content)).data.length -
              ((((papaParse true (FileService.stripBOM content)).data.filter
                FileService.rowValid).map (FileService.normalizeRow now))).length⟩) =
        .ok res := h
    by_cases h3 : (FileService.requiredFields.filter (fun f =>
        !((papaParse true (FileService.stripBOM content)).fields.contains f))) ≠ []
    · rw [if_pos h3] at h2
      exact absurd h2 (by simp)
    · rw [if_neg h3] at h2
      by_cases h4 : (((papaParse true (FileService.stripBOM content)).data.filter
          FileService.rowValid).map (FileService.normalizeRow now)) = []
      · rw [if_pos h4] at h2
        exact absurd h2 (by simp)
      · rw [if_neg h4] at h2
        have h5 := Except.ok.inj h2
        constructor
        · rw [← h5]
        · rw [← h5]
          exact h4

/-- Introduction of a successful `parseCSV`. -/
theorem parseCSV_ok_intro (content now : String)
    (h1 : jsTrim content ≠ "")
    (h2 : (FileService.requiredFields.filter (fun f =>
      !((papaParse true (FileService.stripBOM content)).fields.contains f))) = [])
    (h3 : (((papaParse true (FileService.stripBOM content)).data.filter
        FileService.rowValid).map (FileService.normalizeRow now)) ≠ []) :
    FileService.parseCSV content now = .ok
      ⟨(((papaParse true (FileService.stripBOM content)).data.filter
          FileService.rowValid).map (FileService.normalizeRow now)),
        (papaParse true (FileService.stripBOM content)).data.length -
          ((((papaParse true (FileService.stripBOM content)).data.filter
            FileService.rowValid).map (FileService.normalizeRow now))).length⟩ := by
  unfold FileService.parseCSV
  rw [if_neg h1]
  show (if (FileService.requiredFields.filter (fun f =>
        !((papaParse true (FileService.stripBOM content)).fields.contains f))) ≠ [] then
        (Except.error ("CSVファイルに必須フィールドがありません: " ++ String.intercalate ", "
          (FileService.requiredFields.filter (fun f =>
            !((papaParse true (FileService.stripBOM content)).fields.contains f)))) :
          Except String FileService.ParseOut)
      else if (((papaParse true (FileService.stripBOM content)).data.filter
            FileService.rowValid).map (FileService.normalizeRow now)) = [] then
        .error "有効なデータが見つかりませんでした"
      else .ok ⟨(((papaParse true (FileService.stripBOM content)).data.filter
            FileService.rowValid).map (FileService.normalizeRow now)),
          (papaParse true (FileService.stripBOM content)).data.length -
            ((((papaParse true (FileService.stripBOM content)).data.filter
              FileService.rowValid).map (FileService.normalizeRow now))).length⟩) = _
  rw [if_neg (fun hn => hn h2), if_neg h3]

/-- A string opening with a quote carries no byte-order marker. -/
theorem stripBOM_of_quote (s : String) (l : List Char) (h : (s : String).data = '"' :: l) :
    FileService.stripBOM s = s := by
  unfold FileService.stripBOM
  rw [h]
  split
  · rename_i rest heq
    rw [List.cons.injEq] at heq
    exact absurd heq.1 (by decide)
  · rfl

/-- C4: every CSV text accepted by `parseCSV` (under a CR-free clock string)
serializes with `generateCSV` into a text that `parseCSV` accepts again,
reproducing exactly the same required-field triples (uniqueId, placeName,
adminLevel) row for row; and the surviving triples are invariant under
permutation of the parsed rows. -/
theorem c4_roundtrip (content now now2 : String) (res : FileService.ParseOut)
    (hnow : '\x0d' ∉ (now : String).data)
    (h : FileService.parseCSV content now = .ok res) :
    (∃ csv res2, FileService.generateCSV (some res.data) none = .ok csv ∧
      FileService.parseCSV csv now2 = .ok res2 ∧
      res2.data.map reqTriple = res.data.map reqTriple) ∧
    (∀ (rows rows2 : List RecordJS) (now3 : String), rows.Perm rows2 →
      (((rows.filter FileService.rowValid).map (FileService.normalizeRow now3)).map
        reqTriple).Perm
        (((rows2.filter FileService.rowValid).map (FileService.normalizeRow now3)).map
          reqTriple)) := by
  constructor
  · obtain ⟨hdata, hne⟩ := parseCSV_ok content now res h
    have hvals0 : ∀ r0 ∈ (papaParse true (FileService.stripBOM content)).data.filter
        FileService.rowValid, ∀ kv ∈ r0,
        ∃ t, jsTrim t = t ∧ '\x0d' ∉ (t : String).data ∧ kv.2 = dynamicType t :=
      fun r0 hr0 => papaParse_true_values _ r0 (List.mem_of_mem_filter hr0)
    have hvalid0 : ∀ r0 ∈ (papaParse true (FileService.stripBOM content)).data.filter
        FileService.rowValid, FileService.rowValid r0 = true :=
      fun r0 hr0 => List.of_mem_filter hr0
    have hcr : ∀ r ∈ res.data, ∀ s ∈ cellsOf r, '\x0d' ∉ (s : String).data := by
      rw [hdata]
      intro r hr
      rw [List.mem_map] at hr
      obtain ⟨r0, hr0, hrr⟩ := hr
      subst hrr
      exact cellsOf_no_cr now r0 hnow (hvals0 r0 hr0)
    obtain ⟨l, hl⟩ := papaUnparse_default_data (res.data.map cellsOf)
    have hsb := stripBOM_of_quote _ _ hl
    have hnt : jsTrim (papaUnparse (FileService.defaultFields :: res.data.map cellsOf)) ≠ "" :=
      jsTrim_ne_empty _ '"' (by rw [hl]; exact List.mem_cons_self _ _) (by decide)
    have hpp : papaParse true (FileService.stripBOM
        (papaUnparse (FileService.defaultFields :: res.data.map cellsOf))) =
        ⟨FileService.defaultFields,
         res.data.map (fun r => mkRecord FileService.defaultFields (cellsOf r) true), []⟩ := by
      rw [hsb]
      exact papaParse_generated res.data hcr
    have hrt : ∀ r ∈ res.data,
        FileService.rowValid (mkRecord FileService.defaultFields (cellsOf r) true) = true ∧
        reqTriple (FileService.normalizeRow now2
          (mkRecord FileService.defaultFields (cellsOf r) true)) = reqTriple r := by
      rw [hdata]
      intro r hr
      rw [List.mem_map] at hr
      obtain ⟨r0, hr0, hrr⟩ := hr
      subst hrr
      exact row_roundtrip now now2 r0 (hvalid0 r0 hr0)
        (fun kv hkv => (hvals0 r0 hr0 kv hkv).imp (fun t ht => ⟨ht.1, ht.2.2⟩))
    have hfilter2 : (res.data.map (fun r => mkRecord FileService.defaultFields
        (cellsOf r) true)).filter FileService.rowValid =
        res.data.map (fun r => mkRecord FileService.defaultFields (cellsOf r) true) := by
      refine List.filter_eq_self.mpr ?_
      intro a ha
      rw [List.mem_map] at ha
      obtain ⟨r, hr, har⟩ := ha
      subst har
      exact (hrt r hr).1
    have hne2 : ((res.data.map (fun r => mkRecord FileService.defaultFields
        (cellsOf r) true)).filter FileService.rowValid).map
        (FileService.normalizeRow now2) ≠ [] := by
      rw [hfilter2]
      intro hnil
      have hlen := congrArg List.length hnil
      simp at hlen
      exact hne hlen
    have hok := parseCSV_ok_intro
      (papaUnparse (FileService.defaultFields :: res.data.map cellsOf)) now2 hnt
      (by rw [hpp]
          show FileService.requiredFields.filter
            (fun f => !(FileService.defaultFields.contains f)) = []
          decide)
      (by rw [hpp]; exact hne2)
    refine ⟨papaUnparse (FileService.defaultFields :: res.data.map cellsOf), _,
      generateCSV_eq res.data hne, hok, ?_⟩
    show ((((papaParse true (FileService.stripBOM (papaUnparse (FileService.defaultFields ::
        res.data.map cellsOf)))).data.filter FileService.rowValid).map
        (FileService.normalizeRow now2)).map reqTriple) = res.data.map reqTriple
    rw [hpp]
    show ((((res.data.map (fun r => mkRecord FileService.defaultFields (cellsOf r)
        true)).filter FileService.rowValid).map (FileService.normalizeRow now2)).map
      reqTriple) = res.data.map reqTriple
    rw [hfilter2, List.map_map, List.map_map]
    refine List.map_congr_left ?_
    intro r hr
    exact (hrt r hr).2
  · intro rows rows2 now3 hperm
    exact ((hperm.filter _).map _).map _

/-- C4 witness: a concrete one-row CSV whose uniqueId `01` dynamically types
to the number 1, round-tripping as the string `1`. -/
theorem c4_roundtrip_witness :
    ('\x0d' ∉ ("2024-01-01T00:00:00.000Z" : String).data) ∧
    FileService.parseCSV "uniqueId,placeName,adminLevel\n01,Tokyo,Prefecture"
        "2024-01-01T00:00:00.000Z" =
      .ok ⟨[[("uniqueId", JsVal.vStr "1"), ("placeName", JsVal.vStr "Tokyo"),
            ("adminLevel", JsVal.vStr "Prefecture"),
            ("dateMarked", JsVal.vStr "2024-01-01T00:00:00.000Z")]], 0⟩ ∧
    ((∃ csv res2, FileService.generateCSV
        (some [[("uniqueId", JsVal.vStr "1"), ("placeName", JsVal.vStr "Tokyo"),
                ("adminLevel", JsVal.vStr "Prefecture"),
                ("dateMarked", JsVal.vStr "2024-01-01T00:00:00.000Z")]]) none = .ok csv ∧
      FileService.parseCSV csv "2024-02-02T00:00:00.000Z" = .ok res2 ∧
      res2.data.map reqTriple =
        [[("uniqueId", JsVal.vStr "1"), ("placeName", JsVal.vStr "Tokyo"),
          ("adminLevel", JsVal.vStr "Prefecture"),
          ("dateMarked", JsVal.vStr "2024-01-01T00:00:00.000Z")]].map reqTriple) ∧
    (∀ (rows rows2 : List RecordJS) (now3 : String), rows.Perm rows2 →
      (((rows.filter FileService.rowValid).map (FileService.normalizeRow now3)).map
        reqTriple).Perm
        (((rows2.filter FileService.rowValid).map (FileService.normalizeRow now3)).map
          reqTriple))) :=
  ⟨by decide, by decide,
   c4_roundtrip "uniqueId,placeName,adminLevel\n01,Tokyo,Prefecture"
     "2024-01-01T00:00:00.000Z" "2024-02-02T00:00:00.000Z"
     ⟨[[("uniqueId", JsVal.vStr "1"), ("placeName", JsVal.vStr "Tokyo"),
        ("adminLevel", JsVal.vStr "Prefecture"),
        ("dateMarked", JsVal.vStr "2024-01-01T00:00:00.000Z")]], 0⟩
     (by decide) (by decide)⟩
